import Mathlib

/-!
Verification of the Perfect-Fit hiring-platform backend core: the job-role
approval workflow (optimistic concurrency, approval audit log) and the
technical-assessment submission and scoring pipeline.

The definitions below are a shallow embedding of the Python source under
`backend/fastapi_app/`:
  * `routers/jobs.py` — create_job, update_job, approve_job, reject_job,
    close_job, apply_for_job;
  * `routers/employee/jobs.py` — update_employee_job;
  * `routers/applications.py` — apply_for_job, submit_technical_assessment,
    run_ai_scoring;
  * `agents/scoring_agent.py` — evaluate_answer.

The relational store (Supabase/postgrest) is embedded as lists of rows with
the filtered read / conditional update / upsert operations the code uses.
Scalar job columns are represented by `title` and `department`; the remaining
scalar columns (description, requirements, salary bounds, ...) are handled by
the code with exactly the same `v is not None` patch logic, so these two
stand for all of them.  The three child collections of a patch body are
modelled as fields of `JobRoleUpdate` because they steer control flow:
`update_employee_job` excludes all three from its row-update data, while
`update_job` excludes only `technical_questions`, so `responsibilities` and
`skills` reach that handler's row update (and, the schema keeping them in
child tables, make it fail).  The `job_responsibilities` and `job_skills`
tables themselves are outside the store model: no claim observes their rows.
Timestamps are drawn from an abstract `Nat` clock.
Handlers that await the store twice (read, then conditional write, then a
disambiguating re-read) take explicit interference functions `env : DB → DB`
standing for whatever other tasks commit between the awaits; `id` recovers
the sequential (uninterfered) execution.
-/

namespace PerfectFit

/-- Roles observed by the core, from `get_user_with_role`. -/
inductive Role
  | candidate
  | employee
  | hr
  | admin
deriving DecidableEq, Repr

/-- An authenticated caller: id plus role. -/
structure User where
  id : Nat
  role : Role
deriving DecidableEq, Repr

/-- Status values stored in `job_roles.status` and `approval_requests.status`. -/
inductive Status
  | pending
  | approved
  | rejected
deriving DecidableEq, Repr

/-- Status values stored in `job_applications.status`. -/
inductive AppStatus
  | submitted
  | reviewing
  | shortlisted
  | rejected
  | hired
deriving DecidableEq, Repr

/-- A row of the `job_roles` table. -/
structure JobRole where
  id : Nat
  title : String
  department : String
  status : Status
  is_open : Bool
  version : Nat
  created_by : Nat
  approved_by : Option Nat
  approved_at : Option Nat
  rejection_reason : Option String
  closed_at : Option Nat
deriving DecidableEq, Repr

/-- A row of the `approval_requests` table. -/
structure ApprovalRequest where
  id : Nat
  job_id : Nat
  requested_by : Nat
  status : Status
  reason : Option String
  reviewed_by : Option Nat
  reviewed_at : Option Nat
deriving DecidableEq, Repr

/-- A row of the `technical_assessments` table (one question of a job). -/
structure TechnicalAssessment where
  id : Nat
  job_id : Nat
  question : String
  desired_answer : String
deriving DecidableEq, Repr

/-- A row of the `job_applications` table. -/
structure Application where
  id : Nat
  job_id : Nat
  applicant_id : Nat
  status : AppStatus
  cover_letter : Option String
  resume_url : Option String
  phone : Option String
  linkedin_url : Option String
deriving DecidableEq, Repr

/-- A row of the `technical_assessment_responses` table, conceptually keyed
by `(application_id, question_id)`. -/
structure AssessmentResponseRow where
  application_id : Nat
  question_id : Nat
  answer : Option String
  ai_score : Option Int
  ai_reasoning : Option String
deriving DecidableEq, Repr

/-- The record store: the five tables the core touches, plus the id sequence
used for inserted rows. -/
structure DB where
  job_roles : List JobRole
  approval_requests : List ApprovalRequest
  technical_assessments : List TechnicalAssessment
  job_applications : List Application
  assessment_responses : List AssessmentResponseRow
  next_id : Nat
deriving DecidableEq, Repr

/-- HTTP-boundary errors raised by the handlers (`HTTPException` status plus
detail). -/
inductive HErr
  | notFound (detail : String)
  | forbidden (detail : String)
  | conflict (detail : String)
  | badRequest (detail : String)
  | internal (detail : String)
deriving DecidableEq, Repr

/-- Stringification of an `HTTPException`, as `str(e)` produces it
(`"{status_code}: {detail}"`). -/
def errString : HErr → String
  | HErr.notFound d => "404: " ++ d
  | HErr.forbidden d => "403: " ++ d
  | HErr.conflict d => "409: " ++ d
  | HErr.badRequest d => "400: " ++ d
  | HErr.internal d => "500: " ++ d

/-- One entry of a `JobRoleUpdate` body's `technical_questions` list. -/
structure TechnicalQuestionInput where
  question : String
  desired_answer : String
deriving DecidableEq, Repr

/-- One entry of a patch body's `responsibilities` list
(`JobResponsibility` in `routers/jobs.py`). -/
structure JobResponsibilityInput where
  content : String
  importance : Nat
deriving DecidableEq, Repr

/-- One entry of a patch body's `skills` list (`JobSkill` in
`routers/jobs.py`). -/
structure JobSkillInput where
  skill_name : String
  min_years : Nat
  is_mandatory : Bool
deriving DecidableEq, Repr

/-- The `JobRoleUpdate` request body: optional scalar fields, the three
optional child collections, and the optimistic-locking `current_version`.
The handlers treat the child collections differently: `update_employee_job`
excludes all three from its row-update data, while `update_job` excludes
only `technical_questions` (and `current_version`), so a patch carrying
`responsibilities` or `skills` makes that handler's scalar update dict
non-empty. -/
structure JobRoleUpdate where
  title : Option String
  department : Option String
  technical_questions : Option (List TechnicalQuestionInput)
  responsibilities : Option (List JobResponsibilityInput)
  skills : Option (List JobSkillInput)
  current_version : Option Nat
deriving DecidableEq, Repr

/-- The `JobRoleCreate` request body (scalar fields plus questions). -/
structure JobRoleCreate where
  title : String
  department : String
  technical_questions : List TechnicalQuestionInput
deriving DecidableEq, Repr

/-- Filtered single-row read: `table("job_roles").select("*").eq("id", job_id)
.single()`. -/
def findJob (db : DB) (job_id : Nat) : Option JobRole :=
  db.job_roles.find? (fun j => j.id == job_id)

/-- Predicate of the conditional update `eq("id", job_id)` plus, when
`current_version` was supplied, `eq("version", v)`. -/
def jobMatches (job_id : Nat) (cond : Option Nat) (j : JobRole) : Bool :=
  j.id == job_id &&
    (match cond with
     | some v => j.version == v
     | none => true)

/-- Conditional update on `job_roles`: applies `f` to every matching row and
reports the affected-row count (postgrest returns the updated rows, so an
empty `result.data` is the zero-count signal the code checks). -/
def condUpdateJob (db : DB) (job_id : Nat) (cond : Option Nat)
    (f : JobRole → JobRole) : DB × Nat :=
  ({ db with
      job_roles := db.job_roles.map (fun j => if jobMatches job_id cond j then f j else j) },
   db.job_roles.countP (jobMatches job_id cond))

/-- Update on `approval_requests` filtered by `eq("job_id", job_id)` and
`eq("status", "pending")`. -/
def updatePendingARs (db : DB) (job_id : Nat) (f : ApprovalRequest → ApprovalRequest) : DB :=
  { db with
      approval_requests := db.approval_requests.map
        (fun a => if a.job_id == job_id && a.status == Status.pending then f a else a) }

/-- Insert into `approval_requests` (reviewed fields start empty). -/
def insertAR (db : DB) (job_id requested_by : Nat) (st : Status)
    (reason : Option String) : DB :=
  { db with
      approval_requests := db.approval_requests ++
        [{ id := db.next_id, job_id := job_id, requested_by := requested_by,
           status := st, reason := reason, reviewed_by := none, reviewed_at := none }],
      next_id := db.next_id + 1 }

/-- Insert a batch of question rows for a job. -/
def insertQuestions (db : DB) (job_id : Nat) (qs : List TechnicalQuestionInput) : DB :=
  qs.foldl
    (fun d q =>
      { d with
          technical_assessments := d.technical_assessments ++
            [{ id := d.next_id, job_id := job_id, question := q.question,
               desired_answer := q.desired_answer }],
          next_id := d.next_id + 1 })
    db

/-- Wholesale replacement of a job's questions: `delete().eq("job_id", id)`
followed by the batch insert, as both update handlers perform it. -/
def replaceQuestions (db : DB) (job_id : Nat) (qs : List TechnicalQuestionInput) : DB :=
  insertQuestions
    { db with
        technical_assessments :=
          db.technical_assessments.filter (fun q => !(q.job_id == job_id)) }
    job_id qs

/-- Count of pending approval requests of one job, the quantity of the audit
log invariant. -/
def pendingCount (db : DB) (job_id : Nat) : Nat :=
  db.approval_requests.countP (fun a => a.job_id == job_id && a.status == Status.pending)

/-- Caller check of `verify_employee_or_admin` / `verify_employee`. -/
def isEmployeeOrAdmin (u : User) : Prop :=
  u.role = Role.employee ∨ u.role = Role.admin

/-- Caller check of `verify_hr_or_admin`. -/
def isHrOrAdmin (u : User) : Prop :=
  u.role = Role.hr ∨ u.role = Role.admin

instance (u : User) : Decidable (isEmployeeOrAdmin u) := by
  unfold isEmployeeOrAdmin; infer_instance

instance (u : User) : Decidable (isHrOrAdmin u) := by
  unfold isHrOrAdmin; infer_instance

/-- The row update applied by both edit handlers: the non-`None` scalar patch
fields, the approval reset when the job was approved at read time, and the
version computed from the version read before the write. -/
def editedRow (updates : JobRoleUpdate) (wasApproved : Bool) (newVersion : Nat)
    (j : JobRole) : JobRole :=
  let j1 := { j with
    title := updates.title.getD j.title,
    department := updates.department.getD j.department }
  let j2 :=
    if wasApproved then
      { j1 with status := Status.pending, approved_by := none, approved_at := none }
    else j1
  { j2 with version := newVersion }

/-- Store state assembled by the success path of `create_job`: the new role
row, its question rows, and the initial pending approval request. -/
def postCreate (db : DB) (job : JobRoleCreate) (user : User) : DB :=
  let jid := db.next_id
  let row : JobRole :=
    { id := jid, title := job.title, department := job.department,
      status := Status.pending, is_open := true, version := 1,
      created_by := user.id, approved_by := none, approved_at := none,
      rejection_reason := none, closed_at := none }
  let db1 : DB := { db with job_roles := db.job_roles ++ [row], next_id := db.next_id + 1 }
  let db2 := insertQuestions db1 jid job.technical_questions
  insertAR db2 jid user.id Status.pending none

/-- POST /jobs (`create_job` in `routers/jobs.py`): inserts the role with
`status="pending"`, `is_open=True`, `version=1`, inserts the questions, then
inserts the initial pending approval request.  Returns the new job id. -/
def create_job (db : DB) (job : JobRoleCreate) (user : User) : Except HErr (DB × Nat) :=
  if ¬ isEmployeeOrAdmin user then
    Except.error (HErr.forbidden "Employee or Admin privileges required")
  else
    Except.ok (postCreate db job user, db.next_id)

/-- Store state assembled by the success path of `update_job`'s write phase,
applied to the store `db` the conditional write ran against: the conditional
row update, the re-approval request insert when the read saw `approved`, and
the wholesale question replacement when the patch carried the child
collection. -/
def postEdit (db : DB) (job_id : Nat) (updates : JobRoleUpdate) (user : User)
    (job : JobRole) : DB :=
  let wasApproved := job.status == Status.approved
  let db1 := (condUpdateJob db job_id updates.current_version
    (editedRow updates wasApproved (job.version + 1))).1
  let db2 :=
    if wasApproved then
      insertAR db1 job_id user.id Status.pending (some "Re-approval required after edit")
    else db1
  match updates.technical_questions with
  | none => db2
  | some qs => replaceQuestions db2 job_id qs

/-- Write phase of PATCH /jobs/{id} (`update_job`), entered once the patch is
known non-empty and the version pre-check passed.  `env1` is the interference
committed between the initial read and the conditional write, `env2` between
that write and the disambiguating re-read of the zero-row branch.

Modelled from the spec: the migrations are absent from the tree, and the data
model (spec section 2) keeps Responsibility and Skill rows in child tables
owned by the JobRole, not as `job_roles` columns.  `update_job` excludes only
`current_version` and `technical_questions` from its update dict, so a patch
carrying `responsibilities` or `skills` sends those keys to the `job_roles`
row update; the store rejects the unknown columns, and the handler's generic
`except Exception` surfaces 500 "Failed to update job" — before any row,
request, or question write lands. -/
def update_job_write (env1 env2 : DB → DB) (db : DB) (job_id : Nat)
    (updates : JobRoleUpdate) (user : User) (job : JobRole) : Except HErr DB :=
  if updates.responsibilities ≠ none ∨ updates.skills ≠ none then
    Except.error (HErr.internal "Failed to update job")
  else
  let dbw := env1 db
  let p := condUpdateJob dbw job_id updates.current_version
    (editedRow updates (job.status == Status.approved) (job.version + 1))
  if p.2 = 0 then
    match findJob (env2 p.1) job_id with
    | some _ =>
        Except.error (HErr.conflict
          "This job has been modified by another user. Please refresh and try again.")
    | none => Except.error (HErr.notFound "Job not found")
  else Except.ok (postEdit dbw job_id updates user job)

/-- PATCH /jobs/{id} (`update_job` in `routers/jobs.py`) with explicit
interference points.  The handler reads the row, checks ownership, builds the
scalar update dict — every supplied field except `current_version` and
`technical_questions`, so `responsibilities` and `skills` count — and
early-returns the unchanged row when that dict is empty, pre-checks
`current_version`, then runs `update_job_write`. -/
def update_job_conc (env1 env2 : DB → DB) (db : DB) (job_id : Nat)
    (updates : JobRoleUpdate) (user : User) : Except HErr DB :=
  if ¬ isEmployeeOrAdmin user then
    Except.error (HErr.forbidden "Employee or Admin privileges required")
  else
    match findJob db job_id with
    | none => Except.error (HErr.notFound "Job not found")
    | some job =>
      if job.created_by ≠ user.id ∧ user.role ≠ Role.admin then
        Except.error (HErr.forbidden "Not authorized to update this job")
      else if updates.title = none ∧ updates.department = none ∧
          updates.responsibilities = none ∧ updates.skills = none then
        Except.ok db
      else
        match updates.current_version with
        | some cv =>
            if cv ≠ job.version then
              Except.error (HErr.conflict
                "This job has been modified by another user. Please refresh and try again.")
            else update_job_write env1 env2 db job_id updates user job
        | none => update_job_write env1 env2 db job_id updates user job

/-- PATCH /jobs/{id} run sequentially (no interference between the store
round-trips). -/
def update_job (db : DB) (job_id : Nat) (updates : JobRoleUpdate) (user : User) :
    Except HErr DB :=
  update_job_conc id id db job_id updates user

/-- Version pre-check of `update_employee_job`: Python's
`if updates.current_version and updates.current_version != version` — note
a supplied `0` is falsy and skips the check. -/
def empVersionConflict (cv : Option Nat) (version : Nat) : Bool :=
  match cv with
  | some c => c != 0 && c != version
  | none => false

/-- Store state assembled by the success path of `update_employee_job`: the
unconditional row update (its update data always holds `version` and
`updated_at`), the wholesale child replacement, then the re-approval request
insert when the read saw `approved`. -/
def postEditEmp (db : DB) (job_id : Nat) (updates : JobRoleUpdate) (user : User)
    (existing : JobRole) : DB :=
  let wasApproved := existing.status == Status.approved
  let db1 := (condUpdateJob db job_id none
    (editedRow updates wasApproved (existing.version + 1))).1
  let db2 :=
    match updates.technical_questions with
    | none => db1
    | some qs => replaceQuestions db1 job_id qs
  if wasApproved then
    insertAR db2 job_id user.id Status.pending (some "Re-approval required after edit")
  else db2

/-- PATCH /employee/jobs/{job_id} (`update_employee_job` in
`routers/employee/jobs.py`) with an explicit interference point.  The handler
reads the row and runs its ownership and version checks against that read;
its row write is `update(update_data).eq("id", job_id)` — unconditional, with
no version predicate, and the update data always contains `version` and
`updated_at`, so it is never skipped.  `env` is the interference committed
between the read and the write: the write (and everything after it) lands on
`env db`, while the checks saw `db`.  This handler excludes
`responsibilities` and `skills` (besides `technical_questions` and
`current_version`) from its update data and replaces those child tables
wholesale; the `job_responsibilities`/`job_skills` tables themselves are
outside the store model, as no claim observes their rows. -/
def update_employee_job_conc (env : DB → DB) (db : DB) (job_id : Nat)
    (updates : JobRoleUpdate) (user : User) : Except HErr DB :=
  if ¬ isEmployeeOrAdmin user then
    Except.error (HErr.forbidden "Employee privileges required")
  else
    match findJob db job_id with
    | none => Except.error (HErr.notFound "Job not found")
    | some existing =>
      if existing.created_by ≠ user.id ∧ user.role ≠ Role.admin then
        Except.error (HErr.forbidden "Not authorized")
      else if empVersionConflict updates.current_version existing.version then
        Except.error (HErr.conflict "Job has been modified by another user")
      else
        Except.ok (postEditEmp (env db) job_id updates user existing)

/-- PATCH /employee/jobs/{job_id} run sequentially (no interference between
the read and the write). -/
def update_employee_job (db : DB) (job_id : Nat) (updates : JobRoleUpdate)
    (user : User) : Except HErr DB :=
  update_employee_job_conc id db job_id updates user

/-- Store state assembled by the success path of `approve_job`: the row
update stamping the approval and bumping the version, then the transition of
every pending approval request of the job to `approved`. -/
def postApprove (db : DB) (job_id : Nat) (user : User) (now : Nat) (job : JobRole) : DB :=
  let db1 := (condUpdateJob db job_id none
    (fun j => { j with
      status := Status.approved, approved_by := some user.id,
      approved_at := some now, rejection_reason := none,
      version := job.version + 1 })).1
  updatePendingARs db1 job_id
    (fun a => { a with
      status := Status.approved, reviewed_by := some user.id,
      reviewed_at := some now })

/-- PATCH /jobs/{id}/approve (`approve_job` in `routers/jobs.py`). -/
def approve_job (db : DB) (job_id : Nat) (user : User) (now : Nat) : Except HErr DB :=
  if ¬ isHrOrAdmin user then
    Except.error (HErr.forbidden "HR or Admin privileges required")
  else
    match findJob db job_id with
    | none => Except.error (HErr.notFound "Job not found")
    | some job =>
      if job.status = Status.approved then
        Except.error (HErr.conflict "Job is already approved")
      else
        Except.ok (postApprove db job_id user now job)

/-- Store state assembled by the success path of `reject_job`. -/
def postReject (db : DB) (job_id : Nat) (reason : String) (user : User) (now : Nat)
    (job : JobRole) : DB :=
  let db1 := (condUpdateJob db job_id none
    (fun j => { j with
      status := Status.rejected, rejection_reason := some reason,
      approved_by := none, approved_at := none,
      version := job.version + 1 })).1
  updatePendingARs db1 job_id
    (fun a => { a with
      status := Status.rejected, reviewed_by := some user.id,
      reviewed_at := some now, reason := some reason })

/-- PATCH /jobs/{id}/reject (`reject_job` in `routers/jobs.py`). -/
def reject_job (db : DB) (job_id : Nat) (reason : String) (user : User) (now : Nat) :
    Except HErr DB :=
  if ¬ isHrOrAdmin user then
    Except.error (HErr.forbidden "HR or Admin privileges required")
  else
    match findJob db job_id with
    | none => Except.error (HErr.notFound "Job not found")
    | some job =>
      if job.status = Status.rejected then
        Except.error (HErr.conflict "Job is already rejected")
      else
        Except.ok (postReject db job_id reason user now job)

/-- PATCH /jobs/{id}/close (`close_job` in `routers/jobs.py`): a single
unconditional update writing `is_open=False` and `closed_at` — and nothing
else; in particular it does not touch `version`. -/
def close_job (db : DB) (job_id : Nat) (user : User) (now : Nat) : Except HErr DB :=
  if ¬ isHrOrAdmin user then
    Except.error (HErr.forbidden "HR or Admin privileges required")
  else
    let p := condUpdateJob db job_id none
      (fun j => { j with is_open := false, closed_at := some now })
    if p.2 = 0 then Except.error (HErr.notFound "Job not found")
    else Except.ok p.1

/-- Existence filter of the duplicate-application pre-check. -/
def applicationExists (db : DB) (job_id applicant_id : Nat) : Bool :=
  db.job_applications.any (fun a => a.job_id == job_id && a.applicant_id == applicant_id)

/-- Count of application rows of one `(job_id, applicant_id)` pair. -/
def applicationCount (db : DB) (job_id applicant_id : Nat) : Nat :=
  db.job_applications.countP (fun a => a.job_id == job_id && a.applicant_id == applicant_id)

/-- Errors raised by the record store itself. -/
inductive StoreErr
  | uniqueViolation
deriving DecidableEq, Repr

/-- Modelled from the spec: the repository's SQL migrations are not part of
the source tree, and §4.4 states that Application uniqueness per
`(job_id, applicant_id)` is also enforced by a store-layer unique constraint
whose violation the handler must treat as the source of truth.  This insert
raises `uniqueViolation` exactly when a row for the pair already exists at
insert time. -/
def insertApplication (db : DB) (row : Application) : Except StoreErr DB :=
  if applicationExists db row.job_id row.applicant_id then
    Except.error StoreErr.uniqueViolation
  else
    Except.ok { db with
      job_applications := db.job_applications ++ [row],
      next_id := db.next_id + 1 }

/-- POST /applications/{job_id} (`apply_for_job` in `routers/applications.py`)
with an interference point `env` between the duplicate pre-check and the
insert.  A store exception from the insert lands in the generic
`except Exception` branch, which raises a 500, not a 409. -/
def apply_for_job_conc (env : DB → DB) (db : DB) (job_id : Nat) (user : User)
    (cover_letter resume_url phone linkedin_url : Option String) : Except HErr DB :=
  match findJob db job_id with
  | none => Except.error (HErr.notFound "Job not found")
  | some job =>
    if job.status ≠ Status.approved ∨ job.is_open = false then
      Except.error (HErr.badRequest "Job is not accepting applications")
    else if applicationExists db job_id user.id then
      Except.error (HErr.conflict "You have already applied for this job")
    else
      let dbw := env db
      match insertApplication dbw
        { id := dbw.next_id, job_id := job_id, applicant_id := user.id,
          status := AppStatus.submitted, cover_letter := cover_letter,
          resume_url := resume_url, phone := phone, linkedin_url := linkedin_url } with
      | Except.ok db2 => Except.ok db2
      | Except.error _ => Except.error (HErr.internal "Application submission failed")

/-- POST /applications/{job_id} run sequentially. -/
def apply_for_job (db : DB) (job_id : Nat) (user : User)
    (cover_letter resume_url phone linkedin_url : Option String) : Except HErr DB :=
  apply_for_job_conc id db job_id user cover_letter resume_url phone linkedin_url

/-- One entry of an assessment submission body. -/
structure QuestionAnswer where
  question_id : Nat
  answer : String
deriving DecidableEq, Repr

/-- Key predicate of the `(application_id, question_id)` upsert conflict
target. -/
def respMatches (app_id qid : Nat) (r : AssessmentResponseRow) : Bool :=
  r.application_id == app_id && r.question_id == qid

/-- Upsert of one row on conflict key `(application_id, question_id)`:
replaces the existing row for the key, otherwise appends. -/
def upsertResponseRow (rows : List AssessmentResponseRow) (r : AssessmentResponseRow) :
    List AssessmentResponseRow :=
  if rows.any (respMatches r.application_id r.question_id) then
    rows.map (fun x => if respMatches r.application_id r.question_id x then r else x)
  else rows ++ [r]

/-- Batch upsert into `technical_assessment_responses`. -/
def upsertResponses (db : DB) (batch : List AssessmentResponseRow) : DB :=
  { db with assessment_responses := batch.foldl upsertResponseRow db.assessment_responses }

/-- Membership of a question id in the job's `questions_map`. -/
def knownQuestion (db : DB) (job_id qid : Nat) : Bool :=
  db.technical_assessments.any (fun q => q.job_id == job_id && q.id == qid)

/-- Lookup of the stored response row of one key. -/
def respFind (db : DB) (app_id qid : Nat) : Option AssessmentResponseRow :=
  db.assessment_responses.find? (respMatches app_id qid)

/-- Count of stored response rows of one key. -/
def respCount (db : DB) (app_id qid : Nat) : Nat :=
  db.assessment_responses.countP (respMatches app_id qid)

/-- Result body of the submission endpoint. -/
structure SubmitOk where
  db : DB
  scored_count : Nat
deriving DecidableEq, Repr

/-- The last row of a batch carrying a given key — the row whose values an
upsert of the batch leaves in the store for that key. -/
def batchFind (batch : List AssessmentResponseRow) (a q : Nat) :
    Option AssessmentResponseRow :=
  batch.reverse.find? (respMatches a q)

/-- The `unscored_responses` batch of the submission handler: answers whose
`question_id` belongs to the job, mapped to rows with `ai_score=None` and the
`"Pending analysis..."` placeholder. -/
def submitRows (db : DB) (app_id job_id : Nat) (answers : List QuestionAnswer) :
    List AssessmentResponseRow :=
  (answers.filter (fun qa => knownQuestion db job_id qa.question_id)).map (fun qa =>
    { application_id := app_id, question_id := qa.question_id,
      answer := some qa.answer, ai_score := none,
      ai_reasoning := some "Pending analysis..." })

/-- Try-block of POST /applications/{app_id}/technical-assessment/submit
(`submit_technical_assessment` in `routers/applications.py`): ownership
check, question-set resolution, silent discarding of unknown question ids,
and the immediate unscored upsert.  Scoring is handed off to the background
task after the response (modelled separately as `run_ai_scoring`). -/
def submit_assessment_body (db : DB) (app_id : Nat) (answers : List QuestionAnswer)
    (user : User) : Except HErr SubmitOk :=
  match db.job_applications.find? (fun a => a.id == app_id) with
  | none => Except.error (HErr.notFound "Application not found")
  | some app =>
    if app.applicant_id ≠ user.id then
      Except.error (HErr.forbidden "Not authorized to submit for this application")
    else if ¬ db.technical_assessments.any (fun q => q.job_id == app.job_id) then
      Except.error (HErr.badRequest "No technical questions found for this job")
    else
      let rows := submitRows db app_id app.job_id answers
      let db1 := if rows.isEmpty then db else upsertResponses db rows
      Except.ok { db := db1, scored_count := rows.length }

/-- The complete submission endpoint as the HTTP boundary sees it: the
handler's `except Exception` clause has no preceding `except HTTPException:
raise`, so every `HTTPException` raised in the try-block — including the
domain 404/403/400 — is caught and re-raised as
`HTTPException(status_code=500, detail=str(e))`. -/
def submit_assessment (db : DB) (app_id : Nat) (answers : List QuestionAnswer)
    (user : User) : Except HErr SubmitOk :=
  match submit_assessment_body db app_id answers user with
  | Except.ok r => Except.ok r
  | Except.error e => Except.error (HErr.internal (errString e))

/-- Outcome of the scorer dependency call as `evaluate_answer` observes it:
either the chat-completion call or `json.loads` raised, or a JSON object was
parsed, whose `score` and `reasoning` members may each be absent.  (Scores
are modelled as integers; the code applies no type or range validation to
the parsed value.) -/
inductive DepOutcome
  | fails (cause : String)
  | returns (score : Option Int) (reasoning : Option String)
deriving DecidableEq, Repr

/-- The function `evaluate_answer` of `agents/scoring_agent.py`, as a function
of the client configuration flag and the dependency outcome.  Its try/except
absorbs every dependency failure, so it is total: it never raises. -/
def evaluate_answer (configured : Bool) (dep : DepOutcome) : Int × String :=
  if ¬ configured then
    (0, "AI Scoring unavailable (configuration missing).")
  else
    match dep with
    | DepOutcome.fails cause => (0, "Error during AI evaluation: " ++ cause)
    | DepOutcome.returns s r => (s.getD 0, r.getD "No reasoning provided.")

/-- Inner task of `run_ai_scoring`: skips answers absent from the captured
`questions_map`, and converts an exception raised by the evaluation call into
the `ai_score = 0`, `"Analysis failed: <cause>"` row.  The evaluator is a
parameter (`Except.error` standing for a raised exception) because the
fallback branch is only reachable when the call raises. -/
def process_single_answer (dbAtSubmit : DB) (job_id app_id : Nat)
    (ev : QuestionAnswer → Except String (Int × String)) (qa : QuestionAnswer) :
    Option AssessmentResponseRow :=
  if ¬ knownQuestion dbAtSubmit job_id qa.question_id then none
  else
    match ev qa with
    | Except.ok sr =>
        some { application_id := app_id, question_id := qa.question_id,
               answer := none, ai_score := some sr.1, ai_reasoning := some sr.2 }
    | Except.error e =>
        some { application_id := app_id, question_id := qa.question_id,
               answer := none, ai_score := some 0,
               ai_reasoning := some ("Analysis failed: " ++ e) }

/-- The `answers_map` dict comprehension: later duplicates of a question id
overwrite earlier ones. -/
def answersLookup (answers : List QuestionAnswer) (qid : Nat) : Option String :=
  (answers.reverse.find? (fun a => a.question_id == qid)).map (fun a => a.answer)

/-- The background task `run_ai_scoring` of `routers/applications.py`:
evaluates every answer against the question map captured at submission time,
re-attaches the original answer text, and bulk-upserts the batch on the
`(application_id, question_id)` key.  `dbAtSubmit` holds the captured
question map, `db` the store state when the task runs. -/
def run_ai_scoring (dbAtSubmit : DB) (job_id : Nat) (db : DB) (app_id : Nat)
    (answers : List QuestionAnswer)
    (ev : QuestionAnswer → Except String (Int × String)) : DB :=
  let results := answers.filterMap (process_single_answer dbAtSubmit job_id app_id ev)
  let withAnswers := results.map (fun r => { r with answer := answersLookup answers r.question_id })
  if withAnswers.isEmpty then db else upsertResponses db withAnswers

/-- The evaluator actually installed by `run_ai_scoring`: a direct call of
`evaluate_answer`, which is total, so the result is always `Except.ok`. -/
def implEvaluator (configured : Bool) (dep : Nat → DepOutcome) :
    QuestionAnswer → Except String (Int × String) :=
  fun qa => Except.ok (evaluate_answer configured (dep qa.question_id))

/-- One atomic lifecycle operation on the store (the operations the audit-log
invariant quantifies over). -/
inductive Op
  | create (job : JobRoleCreate) (user : User)
  | edit (job_id : Nat) (updates : JobRoleUpdate) (user : User)
  | editEmp (job_id : Nat) (updates : JobRoleUpdate) (user : User)
  | approve (job_id : Nat) (user : User) (now : Nat)
  | reject (job_id : Nat) (reason : String) (user : User) (now : Nat)
deriving Repr

/-- Serial (atomic) execution of one operation: a failing handler raises
before any write, leaving the store unchanged. -/
def applyOp (db : DB) (op : Op) : DB :=
  match op with
  | Op.create j u =>
      match create_job db j u with
      | Except.ok p => p.1
      | Except.error _ => db
  | Op.edit jid up u =>
      match update_job db jid up u with
      | Except.ok d => d
      | Except.error _ => db
  | Op.editEmp jid up u =>
      match update_employee_job db jid up u with
      | Except.ok d => d
      | Except.error _ => db
  | Op.approve jid u now =>
      match approve_job db jid u now with
      | Except.ok d => d
      | Except.error _ => db
  | Op.reject jid r u now =>
      match reject_job db jid r u now with
      | Except.ok d => d
      | Except.error _ => db

/-- Serial execution of a whole history. -/
def runOps (db : DB) (ops : List Op) : DB :=
  ops.foldl applyOp db

/-- The empty store. -/
def emptyDB : DB :=
  { job_roles := [], approval_requests := [], technical_assessments := [],
    job_applications := [], assessment_responses := [], next_id := 0 }

/-- The exact pending-request count demanded by a job's status: one for a
pending job, zero otherwise (also zero for absent jobs). -/
def pendingSpec (db : DB) (job_id : Nat) : Nat :=
  match findJob db job_id with
  | some j => if j.status = Status.pending then 1 else 0
  | none => 0

/-- Inductive invariant of the serial lifecycle semantics: ids are below the
id sequence, and every job's pending approval-request count agrees with its
status. -/
def Inv (db : DB) : Prop :=
  (∀ j ∈ db.job_roles, j.id < db.next_id) ∧
  (∀ a ∈ db.approval_requests, a.job_id < db.next_id) ∧
  (∀ jid, pendingCount db jid = pendingSpec db jid)

/-- Boolean check that one string is a prefix of another, on the character
lists. -/
def strHasPre (p s : String) : Bool :=
  p.data.isPrefixOf s.data

/-- Decidable equality of handler results, so that concrete executions can be
checked by `decide`. -/
def exceptDecEq {ε α : Type} [DecidableEq ε] [DecidableEq α] :
    DecidableEq (Except ε α) := fun x y =>
  match x, y with
  | Except.ok a, Except.ok b =>
      if h : a = b then isTrue (by rw [h]) else isFalse (by simp [h])
  | Except.error a, Except.error b =>
      if h : a = b then isTrue (by rw [h]) else isFalse (by simp [h])
  | Except.ok _, Except.error _ => isFalse (by simp)
  | Except.error _, Except.ok _ => isFalse (by simp)

instance {ε α : Type} [DecidableEq ε] [DecidableEq α] : DecidableEq (Except ε α) :=
  exceptDecEq

/-!
Concrete fixtures used by the counterexample and code-evaluation theorems.
-/

/-- An employee, creator of the fixture job. -/
def cxOwner : User := { id := 10, role := Role.employee }

/-- An HR reviewer. -/
def cxHr : User := { id := 20, role := Role.hr }

/-- A candidate. -/
def cxCand : User := { id := 30, role := Role.candidate }

/-- A freshly created job role (pending, version 1). -/
def cxJobPending : JobRole :=
  { id := 0, title := "T", department := "D", status := Status.pending,
    is_open := true, version := 1, created_by := 10, approved_by := none,
    approved_at := none, rejection_reason := none, closed_at := none }

/-- The same role after approval (version 2). -/
def cxJobApproved : JobRole :=
  { cxJobPending with
    status := Status.approved, approved_by := some 20,
    approved_at := some 1, version := 2 }

/-- The fixture question of job 0. -/
def cxQuestion : TechnicalAssessment :=
  { id := 1, job_id := 0, question := "q?", desired_answer := "a" }

/-- Store holding the pending fixture job; every pending approval request of
it has already been reviewed (count 0 keeps the counterexamples minimal). -/
def cxDbPending : DB :=
  { job_roles := [cxJobPending], approval_requests := [],
    technical_assessments := [cxQuestion], job_applications := [],
    assessment_responses := [], next_id := 2 }

/-- Store holding the approved fixture job. -/
def cxDbApproved : DB :=
  { cxDbPending with job_roles := [cxJobApproved] }

/-- A patch whose only content is the child collection, with a mismatched
`current_version`. -/
def cxChildPatch : JobRoleUpdate :=
  { title := none, department := none,
    technical_questions := some [{ question := "new?", desired_answer := "na" }],
    responsibilities := none, skills := none,
    current_version := some 999 }

/-- A child-only patch without `current_version`. -/
def cxChildPatchNoCv : JobRoleUpdate :=
  { cxChildPatch with current_version := none }

/-- A version-less scalar patch (first concurrent editor). -/
def cxPatch1 : JobRoleUpdate :=
  { title := some "X1", department := none, technical_questions := none,
    responsibilities := none, skills := none, current_version := none }

/-- A version-less scalar patch (second concurrent editor). -/
def cxPatch2 : JobRoleUpdate :=
  { title := some "X2", department := none, technical_questions := none,
    responsibilities := none, skills := none, current_version := none }

/-- Store state after the first version-less edit of the approved job. -/
def cxDbAfterEdit1 : DB :=
  match update_job cxDbApproved 0 cxPatch1 cxOwner with
  | Except.ok d => d
  | Except.error _ => cxDbApproved

/-- Store state after the candidate's first (successful) application. -/
def cxDbApplied : DB :=
  match apply_for_job cxDbApproved 0 cxCand none none none none with
  | Except.ok d => d
  | Except.error _ => cxDbApproved

/-- The candidate's application row used by the assessment fixtures. -/
def cxApplication : Application :=
  { id := 5, job_id := 0, applicant_id := 30, status := AppStatus.submitted,
    cover_letter := none, resume_url := none, phone := none, linkedin_url := none }

/-- Store holding the approved job, its question, and the candidate's
application. -/
def cxDbWithApp : DB :=
  { cxDbApproved with job_applications := [cxApplication], next_id := 6 }

/-- A scorer dependency returning an out-of-range score. -/
def cxDepOutOfRange : Nat → DepOutcome :=
  fun _ => DepOutcome.returns (some 15) (some "r")

/-- A scorer dependency failing on question 1 and answering question 2. -/
def cxDepMixed : Nat → DepOutcome :=
  fun q => if q = 1 then DepOutcome.fails "boom"
           else DepOutcome.returns (some 7) (some "fine")

/-- A second fixture question so that the mixed-outcome batch has a sibling. -/
def cxQuestion2 : TechnicalAssessment :=
  { id := 2, job_id := 0, question := "q2?", desired_answer := "a2" }

/-- Store with two questions and the application, for the scoring batch. -/
def cxDbTwoQ : DB :=
  { cxDbWithApp with technical_assessments := [cxQuestion, cxQuestion2] }

/-- Store state after a first assessment submission answering question 1 with
"first". -/
def cxDbFirstSubmit : DB :=
  upsertResponses cxDbWithApp
    (submitRows cxDbWithApp 5 0 [{ question_id := 1, answer := "first" }])

/-- The second submission's answers: an overwrite of question 1 plus an
unknown question id. -/
def cxSecondAnswers : List QuestionAnswer :=
  [{ question_id := 1, answer := "second" }, { question_id := 77, answer := "junk" }]

/-- A scalar patch carrying a stale expected version. -/
def cxScalarPatch999 : JobRoleUpdate :=
  { title := some "Title2", department := none, technical_questions := none,
    responsibilities := none, skills := none, current_version := some 999 }

/-- A scalar patch whose expected version matches the pending fixture job. -/
def cxScalarPatchV1 : JobRoleUpdate :=
  { title := some "Title2", department := none, technical_questions := none,
    responsibilities := none, skills := none, current_version := some 1 }

/-- A job-creation body used by the version witness. -/
def cxNewJob : JobRoleCreate :=
  { title := "NewTitle", department := "Dept", technical_questions := [] }

/-- Store state after an employee-route child-only edit of the approved
fixture job. -/
def cxDbEmpEdited : DB :=
  match update_employee_job cxDbApproved 0 cxChildPatchNoCv cxOwner with
  | Except.ok d => d
  | Except.error _ => cxDbApproved

/-- A patch carrying only the responsibilities child collection — which the
jobs-route handler, unlike the employee route, copies into the row update. -/
def cxRespPatch : JobRoleUpdate :=
  { title := none, department := none, technical_questions := none,
    responsibilities := some [{ content := "own the roadmap", importance := 1 }],
    skills := none, current_version := none }

/-- An employee-route patch supplying the approved fixture job's stored
version 2 (first editor). -/
def cxEmpPatchV2a : JobRoleUpdate :=
  { title := some "E1", department := none, technical_questions := none,
    responsibilities := none, skills := none, current_version := some 2 }

/-- The second editor's employee-route patch, also supplying version 2. -/
def cxEmpPatchV2b : JobRoleUpdate :=
  { title := some "E2", department := none, technical_questions := none,
    responsibilities := none, skills := none, current_version := some 2 }

/-- Store left by the first employee edit of the approved fixture job. -/
def cxDbEmpFirst : DB :=
  match update_employee_job cxDbApproved 0 cxEmpPatchV2a cxOwner with
  | Except.ok d => d
  | Except.error _ => cxDbApproved

/-- Store left by the second employee edit, whose read and version check ran
against the original store while its unconditional write landed on the first
edit's result. -/
def cxDbEmpSecond : DB :=
  match update_employee_job_conc (fun _ => cxDbEmpFirst) cxDbApproved 0
      cxEmpPatchV2b cxOwner with
  | Except.ok d => d
  | Except.error _ => cxDbApproved

/-- Phase of one in-flight edit in the optimistic-concurrency protocol of
`update_job`: before the initial read, between the passed pre-check and the
conditional write, or finished with the write's outcome. -/
inductive EditPhase
  | start
  | ready
  | done (success : Bool)
deriving DecidableEq, Repr

/-- Local state of one in-flight edit: its phase and the row its read
observed (kept once the pre-check passes). -/
structure EditorSt where
  phase : EditPhase
  jobRead : Option JobRole
deriving DecidableEq, Repr

/-- One store round-trip of an editor that supplied `expected` as
`current_version`: the `start` step is the row read followed by the local
pre-check against `expected`; the `ready` step is the conditional update
`eq("id", job_id).eq("version", expected)` writing the patch with
`version := read version + 1`, succeeding exactly when it affects rows. -/
def editStep (job_id expected : Nat) (u : JobRoleUpdate) (db : DB) (e : EditorSt) :
    DB × EditorSt :=
  match e.phase with
  | EditPhase.start =>
      match findJob db job_id with
      | none => (db, { e with phase := EditPhase.done false })
      | some job =>
          if job.version = expected then
            (db, { phase := EditPhase.ready, jobRead := some job })
          else (db, { e with phase := EditPhase.done false })
  | EditPhase.ready =>
      match e.jobRead with
      | none => (db, { e with phase := EditPhase.done false })
      | some job =>
          let p := condUpdateJob db job_id (some expected)
            (editedRow u (job.status == Status.approved) (job.version + 1))
          if p.2 = 0 then (p.1, { e with phase := EditPhase.done false })
          else (p.1, { e with phase := EditPhase.done true })
  | EditPhase.done _ => (db, e)

/-- Joint state of two concurrent edits of the same job over the shared
store. -/
structure TwoEdits where
  db : DB
  a : EditorSt
  b : EditorSt
deriving DecidableEq, Repr

/-- One scheduler step: `true` runs editor `a`, `false` editor `b`. -/
def twoEditsStep (job_id ea eb : Nat) (ua ub : JobRoleUpdate) (s : TwoEdits)
    (who : Bool) : TwoEdits :=
  if who then
    let p := editStep job_id ea ua s.db s.a
    { s with db := p.1, a := p.2 }
  else
    let p := editStep job_id eb ub s.db s.b
    { s with db := p.1, b := p.2 }

/-- Run of the two edits under an arbitrary interleaving of their read and
write steps. -/
def twoEditsRun (job_id ea eb : Nat) (ua ub : JobRoleUpdate) (s : TwoEdits)
    (sched : List Bool) : TwoEdits :=
  sched.foldl (twoEditsStep job_id ea eb ua ub) s

/-- Initial joint state: both editors before their read. -/
def twoEditsInit (db : DB) : TwoEdits :=
  { db := db, a := { phase := EditPhase.start, jobRead := none },
    b := { phase := EditPhase.start, jobRead := none } }

/-- An editor past its pre-check has observed a row holding exactly its
expected version. -/
def editorReadOk (expected : Nat) (e : EditorSt) : Prop :=
  (e.phase = EditPhase.ready ∨ e.phase = EditPhase.done true) →
  ∃ j, e.jobRead = some j ∧ j.version = expected

/-- No row of the edited job currently holds version `e`. -/
def noRowAtVersion (db : DB) (job_id e : Nat) : Prop :=
  ∀ j ∈ db.job_roles, j.id = job_id → j.version ≠ e

/-- Inductive invariant of two concurrent edits sharing one expected version
`e`: each editor's read observed `e` if it got that far; once either editor
has committed, no row of the job holds version `e` any more; and the two
editors never both commit. -/
def twoEditsInv (job_id e : Nat) (s : TwoEdits) : Prop :=
  editorReadOk e s.a ∧ editorReadOk e s.b ∧
  ((s.a.phase = EditPhase.done true ∨ s.b.phase = EditPhase.done true) →
    noRowAtVersion s.db job_id e) ∧
  ¬ (s.a.phase = EditPhase.done true ∧ s.b.phase = EditPhase.done true)

/-- Specification-side wording of the edit version check, for the refutation
of C1: a mismatched supplied `expected_version` always yields a Conflict. -/
def specVersionCheckAlwaysConflicts : Prop :=
  ∀ (db : DB) (job_id : Nat) (u : JobRoleUpdate) (user : User) (job : JobRole) (cv : Nat),
    findJob db job_id = some job → u.current_version = some cv → cv ≠ job.version →
    ∃ d, update_job db job_id u user = Except.error (HErr.conflict d)

/-- A string is an append-extension of a prefix exactly when the Boolean
prefix check succeeds. -/
theorem strHasPre_iff (p s : String) :
    strHasPre p s = true ↔ ∃ t : String, s = p ++ t := by
  unfold strHasPre
  rw [List.isPrefixOf_iff_prefix]
  constructor
  · rintro ⟨t, ht⟩
    refine ⟨⟨t⟩, ?_⟩
    apply String.ext
    rw [String.data_append]
    exact ht.symm
  · rintro ⟨t, ht⟩
    subst ht
    rw [String.data_append]
    exact List.prefix_append p.data t.data

/-- C1 counterexample: when the patch body carries only the
`technical_questions` child collection — the one child field the handler does
exclude from its update dict — `update_job` returns before the
optimistic-locking check, so a supplied `current_version` of 999 against
stored version 1 succeeds with HTTP 200 instead of failing with Conflict. -/
theorem update_job_empty_patch_skips_version_check :
    cxChildPatch.current_version = some 999 ∧
    (findJob cxDbPending 0).map JobRole.version = some 1 ∧
    update_job cxDbPending 0 cxChildPatch cxOwner = Except.ok cxDbPending ∧
    ¬ specVersionCheckAlwaysConflicts := by
  refine ⟨rfl, by decide, by decide, ?_⟩
  intro hspec
  rcases hspec cxDbPending 0 cxChildPatch cxOwner cxJobPending 999 (by decide) rfl
    (by decide) with ⟨d, hd⟩
  have hok : update_job cxDbPending 0 cxChildPatch cxOwner = Except.ok cxDbPending := by
    decide
  rw [hok] at hd
  exact Except.noConfusion hd

/-- C2 counterexample: an edit of an approved job whose patch contains only
the `technical_questions` child collection succeeds (HTTP 200) yet leaves the
status `approved`, keeps `approved_by`, and inserts no ApprovalRequest — the
early return on an empty scalar update dict precedes the edit-resets-approval
logic. -/
theorem update_job_child_only_edit_keeps_approved :
    (findJob cxDbApproved 0).map JobRole.status = some Status.approved ∧
    update_job cxDbApproved 0 cxChildPatchNoCv cxOwner = Except.ok cxDbApproved ∧
    (findJob cxDbApproved 0).map JobRole.approved_by = some (some 20) ∧
    pendingCount cxDbApproved 0 = 0 := by
  decide

/-- C5 counterexample: `close_job` succeeds but writes only `is_open` and
`closed_at`; the stored version stays 2, refuting that every successful
mutation increments the version. -/
theorem close_job_does_not_increment_version :
    (findJob cxDbApproved 0).map JobRole.version = some 2 ∧
    (close_job cxDbApproved 0 cxHr 7).map (fun d => (findJob d 0).map JobRole.version) =
      Except.ok (some 2) ∧
    (close_job cxDbApproved 0 cxHr 7).map (fun d => (findJob d 0).map JobRole.is_open) =
      Except.ok (some false) := by
  decide

/-- C3 counterexample: two version-less edits of the same approved job, the
second reading before the first's write lands (its write applied to the store
the first left behind), both succeed and each inserts a pending
ApprovalRequest: the job ends with two pending rows. -/
theorem interleaved_versionless_edits_two_pending :
    pendingCount cxDbApproved 0 = 0 ∧
    update_job cxDbApproved 0 cxPatch1 cxOwner = Except.ok cxDbAfterEdit1 ∧
    pendingCount cxDbAfterEdit1 0 = 1 ∧
    (update_job_conc (fun _ => cxDbAfterEdit1) id cxDbApproved 0 cxPatch2 cxOwner).map
      (fun d => pendingCount d 0) = Except.ok 2 := by
  decide

/-- C6 counterexample: when the duplicate slips past the pre-check (a second
apply whose pre-check read preceded the first's insert), the store's
unique-constraint violation lands in the generic `except Exception` branch
and surfaces as a 500 internal error, not as the claimed Conflict. -/
theorem store_unique_violation_yields_500_not_conflict :
    apply_for_job cxDbApproved 0 cxCand none none none none = Except.ok cxDbApplied ∧
    applicationCount cxDbApplied 0 30 = 1 ∧
    apply_for_job_conc (fun _ => cxDbApplied) cxDbApproved 0 cxCand none none none none =
      Except.error (HErr.internal "Application submission failed") := by
  decide

/-- C9: the try-block of `submit_technical_assessment` raises domain
`HTTPException`s (404 missing application, 403 foreign application, 400 no
questions), but the handler's `except Exception` clause — which has no
preceding `except HTTPException: raise` — catches them and re-raises
`HTTPException(500, str(e))`: every domain error reaches the boundary as a
generic 500. -/
theorem submit_assessment_wraps_domain_errors_as_500 :
    submit_assessment cxDbApproved 99 [] cxCand =
      Except.error (HErr.internal "404: Application not found") ∧
    submit_assessment cxDbWithApp 5 [{ question_id := 1, answer := "a1" }] cxOwner =
      Except.error (HErr.internal "403: Not authorized to submit for this application") ∧
    submit_assessment { cxDbWithApp with technical_assessments := [] } 5
        [{ question_id := 1, answer := "a1" }] cxCand =
      Except.error (HErr.internal "400: No technical questions found for this job") := by
  decide

/-- C10: `evaluate_answer` forwards `result.get("score", 0)` without any type
or range validation, so a parsed scorer response of score 15 — outside the
documented 0..10 — is persisted verbatim by the scoring task. -/
theorem out_of_range_score_persisted_verbatim :
    evaluate_answer true (DepOutcome.returns (some 15) (some "r")) = (15, "r") ∧
    respFind (run_ai_scoring cxDbWithApp 0 cxDbWithApp 5
        [{ question_id := 1, answer := "ans1" }] (implEvaluator true cxDepOutOfRange)) 5 1 =
      some { application_id := 5, question_id := 1, answer := some "ans1",
             ai_score := some 15, ai_reasoning := some "r" } ∧
    ¬ ((15 : Int) ≤ 10) := by
  decide

/-- C8 counterexample: in a two-answer batch where the dependency fails for
question 1 only, the failed answer persists with `ai_score = 0` but its
reasoning is the string built inside `evaluate_answer` —
"Error during AI evaluation: boom" — not one beginning "Analysis failed: ";
the sibling persists its real score. -/
theorem scoring_failure_reasoning_not_analysis_failed :
    respFind (run_ai_scoring cxDbTwoQ 0 cxDbTwoQ 5
        [{ question_id := 1, answer := "a1" }, { question_id := 2, answer := "a2" }]
        (implEvaluator true cxDepMixed)) 5 1 =
      some { application_id := 5, question_id := 1, answer := some "a1",
             ai_score := some 0,
             ai_reasoning := some "Error during AI evaluation: boom" } ∧
    respFind (run_ai_scoring cxDbTwoQ 0 cxDbTwoQ 5
        [{ question_id := 1, answer := "a1" }, { question_id := 2, answer := "a2" }]
        (implEvaluator true cxDepMixed)) 5 2 =
      some { application_id := 5, question_id := 2, answer := some "a2",
             ai_score := some 7, ai_reasoning := some "fine" } ∧
    ¬ ∃ c : String, "Error during AI evaluation: boom" = "Analysis failed: " ++ c := by
  refine ⟨by decide, by decide, ?_⟩
  intro hex
  have hpre : strHasPre "Analysis failed: " "Error during AI evaluation: boom" = true :=
    (strHasPre_iff _ _).mpr hex
  have hfalse : strHasPre "Analysis failed: " "Error during AI evaluation: boom" = false := by
    decide
  rw [hfalse] at hpre
  exact Bool.noConfusion hpre

/-- A row satisfies the predicate of its own key. -/
theorem respMatches_self (r : AssessmentResponseRow) :
    respMatches r.application_id r.question_id r = true := by
  simp [respMatches]

/-- A row found under a key predicate carries that key. -/
theorem respMatches_key {a q : Nat} {r : AssessmentResponseRow}
    (h : respMatches a q r = true) : r.application_id = a ∧ r.question_id = q := by
  simpa [respMatches] using h

/-- A row matching a key that `r` does not match cannot match `r`'s key. -/
theorem respMatches_disjoint {a q : Nat} {r x : AssessmentResponseRow}
    (h : respMatches a q r = false) (hx : respMatches a q x = true) :
    respMatches r.application_id r.question_id x = false := by
  obtain ⟨h1, h2⟩ := respMatches_key hx
  by_contra hb
  have hb' : respMatches r.application_id r.question_id x = true := by simpa using hb
  obtain ⟨e1, e2⟩ := respMatches_key hb'
  have hr : respMatches a q r = true := by
    simp [respMatches]
    exact ⟨by rw [← e1, h1], by rw [← e2, h2]⟩
  rw [h] at hr
  exact Bool.noConfusion hr

/-- A row matching `r`'s key cannot match a key that `r` does not match. -/
theorem respMatches_disjoint' {a q : Nat} {r x : AssessmentResponseRow}
    (h : respMatches a q r = false)
    (hx : respMatches r.application_id r.question_id x = true) :
    respMatches a q x = false := by
  obtain ⟨e1, e2⟩ := respMatches_key hx
  by_contra hb
  have hb' : respMatches a q x = true := by simpa using hb
  obtain ⟨h1, h2⟩ := respMatches_key hb'
  have hr : respMatches a q r = true := by
    simp [respMatches]
    exact ⟨by rw [← e1, h1], by rw [← e2, h2]⟩
  rw [h] at hr
  exact Bool.noConfusion hr

/-- Replacing every row of `r`'s key by `r` is invisible to `r`'s own key
predicate. -/
theorem respMatches_comp_replace_self (r : AssessmentResponseRow) :
    (respMatches r.application_id r.question_id ∘
      fun x => if respMatches r.application_id r.question_id x then r else x) =
      respMatches r.application_id r.question_id := by
  funext x
  by_cases hx : respMatches r.application_id r.question_id x = true
  · show respMatches r.application_id r.question_id
      (if respMatches r.application_id r.question_id x = true then r else x) = _
    rw [if_pos hx, respMatches_self, hx]
  · show respMatches r.application_id r.question_id
      (if respMatches r.application_id r.question_id x = true then r else x) = _
    rw [if_neg hx]

/-- Replacing every row of `r`'s key by `r` is invisible to every key that
`r` does not match. -/
theorem respMatches_comp_replace_other {a q : Nat} (r : AssessmentResponseRow)
    (h : respMatches a q r = false) :
    (respMatches a q ∘
      fun x => if respMatches r.application_id r.question_id x then r else x) =
      respMatches a q := by
  funext x
  by_cases hx : respMatches r.application_id r.question_id x = true
  · show respMatches a q
      (if respMatches r.application_id r.question_id x = true then r else x) = _
    rw [if_pos hx, h, respMatches_disjoint' h hx]
  · show respMatches a q
      (if respMatches r.application_id r.question_id x = true then r else x) = _
    rw [if_neg hx]

/-- After upserting `r`, its key finds exactly `r`. -/
theorem find?_upsertResponseRow_self (rows : List AssessmentResponseRow)
    (r : AssessmentResponseRow) :
    (upsertResponseRow rows r).find? (respMatches r.application_id r.question_id) =
      some r := by
  unfold upsertResponseRow
  split
  next hany =>
    rw [List.find?_map, respMatches_comp_replace_self]
    obtain ⟨y, hyMem, hpy⟩ := List.any_eq_true.mp hany
    cases hfind : rows.find? (respMatches r.application_id r.question_id) with
    | none =>
        rw [List.find?_eq_none] at hfind
        exact absurd hpy (hfind y hyMem)
    | some x =>
        have hpx := List.find?_some hfind
        simp only [Option.map_some']
        rw [if_pos hpx]
  next hany =>
    rw [List.find?_append]
    have hnone : rows.find? (respMatches r.application_id r.question_id) = none := by
      rw [List.find?_eq_none]
      intro x hx hpx
      exact hany (List.any_eq_true.mpr ⟨x, hx, hpx⟩)
    rw [hnone]
    simp [respMatches_self]

/-- Upserting `r` leaves lookups under every other key unchanged. -/
theorem find?_upsertResponseRow_other (rows : List AssessmentResponseRow)
    (r : AssessmentResponseRow) (a q : Nat)
    (h : respMatches a q r = false) :
    (upsertResponseRow rows r).find? (respMatches a q) =
      rows.find? (respMatches a q) := by
  unfold upsertResponseRow
  split
  next hany =>
    rw [List.find?_map, respMatches_comp_replace_other r h]
    cases hfind : rows.find? (respMatches a q) with
    | none => simp
    | some x =>
        have hpx := List.find?_some hfind
        have hxne := respMatches_disjoint h hpx
        simp only [Option.map_some']
        rw [if_neg (by simp [hxne])]
  next hany =>
    rw [List.find?_append]
    simp [h]

/-- Upserting a row with key `(a, q)` into a store holding at most one row of
that key leaves exactly one. -/
theorem countP_upsertResponseRow_self (rows : List AssessmentResponseRow)
    (r : AssessmentResponseRow)
    (h : rows.countP (respMatches r.application_id r.question_id) ≤ 1) :
    (upsertResponseRow rows r).countP (respMatches r.application_id r.question_id) = 1 := by
  unfold upsertResponseRow
  split
  next hany =>
    rw [List.countP_map, respMatches_comp_replace_self]
    obtain ⟨y, hyMem, hpy⟩ := List.any_eq_true.mp hany
    have hpos : 0 < rows.countP (respMatches r.application_id r.question_id) :=
      List.countP_pos_iff.mpr ⟨y, hyMem, hpy⟩
    omega
  next hany =>
    rw [List.countP_append]
    have hzero : rows.countP (respMatches r.application_id r.question_id) = 0 := by
      by_contra hnz
      obtain ⟨y, hyMem, hpy⟩ := List.countP_pos_iff.mp (Nat.pos_of_ne_zero hnz)
      exact hany (List.any_eq_true.mpr ⟨y, hyMem, hpy⟩)
    rw [hzero]
    simp [respMatches_self]

/-- Upserting a row leaves the counts of every other key unchanged. -/
theorem countP_upsertResponseRow_other (rows : List AssessmentResponseRow)
    (r : AssessmentResponseRow) (a q : Nat)
    (h : respMatches a q r = false) :
    (upsertResponseRow rows r).countP (respMatches a q) =
      rows.countP (respMatches a q) := by
  unfold upsertResponseRow
  split
  next hany => rw [List.countP_map, respMatches_comp_replace_other r h]
  next hany =>
    rw [List.countP_append]
    simp [h]

/-- The store after a batch upsert resolves a key to the batch's last row of
that key, falling back to the store's previous row. -/
theorem find?_foldl_upsert (batch : List AssessmentResponseRow)
    (rows : List AssessmentResponseRow) (a q : Nat) :
    (batch.foldl upsertResponseRow rows).find? (respMatches a q) =
      (batchFind batch a q).or (rows.find? (respMatches a q)) := by
  induction batch generalizing rows with
  | nil => simp [batchFind]
  | cons r batch ih =>
      rw [List.foldl_cons, ih]
      have hbf : batchFind (r :: batch) a q =
          (batchFind batch a q).or ([r].find? (respMatches a q)) := by
        unfold batchFind
        rw [List.reverse_cons, List.find?_append]
      rw [hbf]
      by_cases hkey : respMatches a q r = true
      · obtain ⟨h1, h2⟩ := respMatches_key hkey
        have hself : (upsertResponseRow rows r).find? (respMatches a q) = some r := by
          rw [← h1, ← h2]
          exact find?_upsertResponseRow_self rows r
        rw [hself]
        simp [hkey, Option.or_assoc]
      · have hkey' : respMatches a q r = false := by
          simpa using hkey
        rw [find?_upsertResponseRow_other rows r a q hkey']
        simp [hkey']

/-- A batch upsert preserves key uniqueness of the response table. -/
theorem countP_foldl_upsert_le (batch : List AssessmentResponseRow)
    (rows : List AssessmentResponseRow) (a q : Nat)
    (h : rows.countP (respMatches a q) ≤ 1) :
    (batch.foldl upsertResponseRow rows).countP (respMatches a q) ≤ 1 := by
  induction batch generalizing rows with
  | nil => simpa using h
  | cons r batch ih =>
      rw [List.foldl_cons]
      apply ih
      by_cases hkey : respMatches a q r = true
      · obtain ⟨h1, h2⟩ := respMatches_key hkey
        have hone := countP_upsertResponseRow_self rows r (by rw [h1, h2]; exact h)
        rw [h1, h2] at hone
        omega
      · have hkey' : respMatches a q r = false := by simpa using hkey
        rw [countP_upsertResponseRow_other rows r a q hkey']
        exact h

/-- Filtering by a condition implied by the search predicate does not change
the first hit. -/
theorem find?_filter_of_imp {α : Type} (p f : α → Bool) (l : List α)
    (himp : ∀ x, p x = true → f x = true) :
    (l.filter f).find? p = l.find? p := by
  induction l with
  | nil => rfl
  | cons y ys ih =>
      by_cases hf : f y = true
      · rw [List.filter_cons_of_pos hf]
        cases hp : p y with
        | true =>
            rw [List.find?_cons_of_pos _ hp, List.find?_cons_of_pos _ hp]
        | false =>
            rw [List.find?_cons_of_neg _ (by simp [hp]), List.find?_cons_of_neg _ (by simp [hp])]
            exact ih
      · have hf' : f y = false := by simpa using hf
        rw [List.filter_cons_of_neg (by simp [hf'])]
        have hp : p y = false := by
          by_contra hb
          have hb' : p y = true := by simpa using hb
          rw [himp y hb'] at hf'
          exact Bool.noConfusion hf'
        rw [ih, List.find?_cons_of_neg _ (by simp [hp])]

/-- filterMap with a guarded `some` is a map over a filter. -/
theorem filterMap_guard {α β : Type} (c : α → Bool) (g : α → β) (l : List α) :
    l.filterMap (fun x => if c x then some (g x) else none) = (l.filter c).map g := by
  induction l with
  | nil => rfl
  | cons y ys ih =>
      by_cases hc : c y = true
      · rw [List.filterMap_cons, List.filter_cons_of_pos hc]
        simp only [hc, if_pos]
        rw [List.map_cons, ih]
      · have hc' : c y = false := by simpa using hc
        rw [List.filterMap_cons, List.filter_cons_of_neg (by simp [hc'])]
        simp only [hc', Bool.false_eq_true, if_false]
        exact ih

/-- The last batch row of a key, for a batch built by a key-preserving row
constructor mapped over a filtered answer list whose filter retains every
answer of that question id. -/
theorem batchFind_filter_map (answers : List QuestionAnswer)
    (c : QuestionAnswer → Bool) (mk : QuestionAnswer → AssessmentResponseRow)
    (A q : Nat)
    (happ : ∀ qa, (mk qa).application_id = A)
    (hqid : ∀ qa, (mk qa).question_id = qa.question_id)
    (himp : ∀ qa, qa.question_id = q → c qa = true) :
    batchFind ((answers.filter c).map mk) A q =
      (answers.reverse.find? (fun qa => qa.question_id == q)).map mk := by
  unfold batchFind
  rw [← List.map_reverse, List.find?_map]
  have hcomp : (respMatches A q ∘ mk) = (fun qa => qa.question_id == q) := by
    funext qa
    show respMatches A q (mk qa) = (qa.question_id == q)
    simp [respMatches, happ qa, hqid qa]
  rw [hcomp, ← List.filter_reverse, find?_filter_of_imp]
  intro qa hq
  exact himp qa (by simpa using hq)

/-- A batch whose rows all carry retained question ids holds nothing for an
unretained id. -/
theorem batchFind_filter_map_none (answers : List QuestionAnswer)
    (c : QuestionAnswer → Bool) (mk : QuestionAnswer → AssessmentResponseRow)
    (a q : Nat)
    (hqid : ∀ qa, (mk qa).question_id = qa.question_id)
    (hnot : ∀ qa, qa.question_id = q → c qa = false) :
    batchFind ((answers.filter c).map mk) a q = none := by
  unfold batchFind
  rw [List.find?_eq_none]
  intro r hr hpr
  rw [List.mem_reverse] at hr
  obtain ⟨qa, hqa, rfl⟩ := List.mem_map.mp hr
  obtain ⟨hmem, hc⟩ := List.mem_filter.mp hqa
  obtain ⟨h1, h2⟩ := respMatches_key hpr
  rw [hqid qa] at h2
  rw [hnot qa h2] at hc
  exact Bool.noConfusion hc

/-- C7: on a valid submission, unknown question ids are silently dropped
(their stored rows untouched), every retained answer is upserted under its
`(application_id, question_id)` key with `ai_score` null, reasoning
`"Pending analysis..."` and the latest submitted answer text, the synchronous
response counts exactly the retained answers, and key uniqueness of the
response table is preserved — so a repeated submission leaves one row per key
holding the newest text. -/
theorem submit_assessment_upsert_semantics
    (db : DB) (app_id : Nat) (answers : List QuestionAnswer) (user : User)
    (app : Application)
    (happ : db.job_applications.find? (fun a => a.id == app_id) = some app)
    (howner : app.applicant_id = user.id)
    (hq : db.technical_assessments.any (fun qq => qq.job_id == app.job_id) = true)
    (huniq : ∀ a q, respCount db a q ≤ 1) :
    submit_assessment db app_id answers user =
      Except.ok { db := upsertResponses db (submitRows db app_id app.job_id answers),
                  scored_count :=
                    (answers.filter
                      (fun qa => knownQuestion db app.job_id qa.question_id)).length } ∧
    (∀ a q,
      respCount (upsertResponses db (submitRows db app_id app.job_id answers)) a q ≤ 1) ∧
    (∀ q, knownQuestion db app.job_id q = false →
      respFind (upsertResponses db (submitRows db app_id app.job_id answers)) app_id q =
        respFind db app_id q) ∧
    (∀ q ans, knownQuestion db app.job_id q = true →
      answersLookup answers q = some ans →
      respFind (upsertResponses db (submitRows db app_id app.job_id answers)) app_id q =
        some { application_id := app_id, question_id := q, answer := some ans,
               ai_score := none, ai_reasoning := some "Pending analysis..." } ∧
      respCount (upsertResponses db (submitRows db app_id app.job_id answers)) app_id q
        = 1) := by
  have hbatch : submitRows db app_id app.job_id answers =
      (answers.filter (fun qa => knownQuestion db app.job_id qa.question_id)).map
        (fun qa =>
          { application_id := app_id, question_id := qa.question_id,
            answer := some qa.answer, ai_score := none,
            ai_reasoning := some "Pending analysis..." }) := rfl
  refine ⟨?_, ?_, ?_, ?_⟩
  · -- the handler's visible result
    have hdb : (if (submitRows db app_id app.job_id answers).isEmpty = true then db
        else upsertResponses db (submitRows db app_id app.job_id answers)) =
        upsertResponses db (submitRows db app_id app.job_id answers) := by
      by_cases he : (submitRows db app_id app.job_id answers).isEmpty = true
      · rw [if_pos he, List.isEmpty_iff.mp he]
        rfl
      · rw [if_neg he]
    have hlen : (submitRows db app_id app.job_id answers).length =
        (answers.filter (fun qa => knownQuestion db app.job_id qa.question_id)).length := by
      rw [hbatch, List.length_map]
    simp only [submit_assessment, submit_assessment_body, happ]
    rw [if_neg (by simp [howner]), if_neg (by simp [hq]), hdb, hlen]
  · -- key uniqueness preserved
    intro a q
    show ((submitRows db app_id app.job_id answers).foldl upsertResponseRow
        db.assessment_responses).countP (respMatches a q) ≤ 1
    exact countP_foldl_upsert_le _ _ a q (huniq a q)
  · -- unknown ids dropped silently
    intro q hunk
    show ((submitRows db app_id app.job_id answers).foldl upsertResponseRow
        db.assessment_responses).find? (respMatches app_id q) = respFind db app_id q
    rw [find?_foldl_upsert, hbatch, batchFind_filter_map_none]
    · rw [Option.none_or]
      rfl
    · intro qa
      rfl
    · intro qa hqa
      rw [hqa]
      exact hunk
  · -- retained answers stored with placeholder fields and latest text
    intro q ans hknown hlast
    have hfound : ∃ qa, answers.reverse.find? (fun x => x.question_id == q) = some qa ∧
        qa.answer = ans ∧ qa.question_id = q := by
      unfold answersLookup at hlast
      cases hfind : answers.reverse.find? (fun x => x.question_id == q) with
      | none => rw [hfind] at hlast; exact Option.noConfusion hlast
      | some qa =>
          rw [hfind] at hlast
          refine ⟨qa, rfl, ?_, ?_⟩
          · exact Option.some.inj hlast
          · have := List.find?_some hfind
            simpa using this
    obtain ⟨qa, hfind, hans, hqid⟩ := hfound
    have hbf : batchFind (submitRows db app_id app.job_id answers) app_id q =
        some { application_id := app_id, question_id := q, answer := some ans,
               ai_score := none, ai_reasoning := some "Pending analysis..." } := by
      rw [hbatch, batchFind_filter_map]
      · rw [hfind]
        simp [hqid, hans]
      · intro x; rfl
      · intro x; rfl
      · intro x hx
        rw [hx]
        exact hknown
    have hfindResp : respFind (upsertResponses db
        (submitRows db app_id app.job_id answers)) app_id q =
        some { application_id := app_id, question_id := q, answer := some ans,
               ai_score := none, ai_reasoning := some "Pending analysis..." } := by
      show ((submitRows db app_id app.job_id answers).foldl upsertResponseRow
          db.assessment_responses).find? (respMatches app_id q) = _
      rw [find?_foldl_upsert, hbf]
      rfl
    refine ⟨hfindResp, ?_⟩
    have hle : respCount (upsertResponses db
        (submitRows db app_id app.job_id answers)) app_id q ≤ 1 := by
      show ((submitRows db app_id app.job_id answers).foldl upsertResponseRow
          db.assessment_responses).countP (respMatches app_id q) ≤ 1
      exact countP_foldl_upsert_le _ _ app_id q (huniq app_id q)
    have hpos : 0 < respCount (upsertResponses db
        (submitRows db app_id app.job_id answers)) app_id q := by
      have hmem := List.mem_of_find?_eq_some hfindResp
      have hprop := List.find?_some hfindResp
      exact List.countP_pos_iff.mpr ⟨_, hmem, hprop⟩
    omega

/-- Witness for C7: a second submission over the store left by a first one
keeps exactly one row for the overlapping key, holding the newest text. -/
theorem submit_assessment_upsert_semantics_witness :
    answersLookup cxSecondAnswers 1 = some "second" ∧
    knownQuestion cxDbFirstSubmit 0 1 = true ∧
    respFind (upsertResponses cxDbFirstSubmit
        (submitRows cxDbFirstSubmit 5 0 cxSecondAnswers)) 5 1 =
      some { application_id := 5, question_id := 1, answer := some "second",
             ai_score := none, ai_reasoning := some "Pending analysis..." } ∧
    respCount (upsertResponses cxDbFirstSubmit
        (submitRows cxDbFirstSubmit 5 0 cxSecondAnswers)) 5 1 = 1 := by
  have huniq : ∀ a q, respCount cxDbFirstSubmit a q ≤ 1 := by
    intro a q
    exact le_trans (List.countP_le_length _) (by decide)
  have h := (submit_assessment_upsert_semantics cxDbFirstSubmit 5 cxSecondAnswers
    cxCand cxApplication (by decide) (by decide) (by decide) huniq).2.2.2 1 "second"
    (by decide) (by decide)
  exact ⟨by decide, by decide, h.1, h.2⟩

/-- C8 (amended): the evaluator installed by the background task is total
(`evaluate_answer` absorbs every dependency failure, so the
"Analysis failed: " fallback of `run_ai_scoring` can never fire and no
failure reaches the submission caller); a failing dependency call produces
`ai_score = 0` with the cause-naming reasoning
`"Error during AI evaluation: <cause>"`; each answer of the batch is
persisted independently under its own key with its own outcome and the
original answer text; and key uniqueness is preserved. -/
theorem scoring_batch_per_answer_outcomes
    (db0 db : DB) (job_id app_id : Nat) (answers : List QuestionAnswer)
    (configured : Bool) (dep : Nat → DepOutcome)
    (huniq : ∀ a q, respCount db a q ≤ 1) :
    (∀ qa, implEvaluator configured dep qa =
        Except.ok (evaluate_answer configured (dep qa.question_id))) ∧
    (∀ cause, evaluate_answer true (DepOutcome.fails cause) =
        (0, "Error during AI evaluation: " ++ cause)) ∧
    (∀ a q, respCount (run_ai_scoring db0 job_id db app_id answers
        (implEvaluator configured dep)) a q ≤ 1) ∧
    (∀ q ans, knownQuestion db0 job_id q = true →
      answersLookup answers q = some ans →
      respFind (run_ai_scoring db0 job_id db app_id answers
          (implEvaluator configured dep)) app_id q =
        some { application_id := app_id, question_id := q, answer := some ans,
               ai_score := some (evaluate_answer configured (dep q)).1,
               ai_reasoning := some (evaluate_answer configured (dep q)).2 }) := by
  have hproc : process_single_answer db0 job_id app_id (implEvaluator configured dep) =
      fun qa => if knownQuestion db0 job_id qa.question_id then
        some { application_id := app_id, question_id := qa.question_id,
               answer := none,
               ai_score := some (evaluate_answer configured (dep qa.question_id)).1,
               ai_reasoning := some (evaluate_answer configured (dep qa.question_id)).2 }
      else none := by
    funext qa
    show process_single_answer db0 job_id app_id (implEvaluator configured dep) qa = _
    unfold process_single_answer implEvaluator
    by_cases hk : knownQuestion db0 job_id qa.question_id = true
    · rw [if_neg (by simp [hk]), if_pos hk]
    · rw [if_pos (by simp [hk]), if_neg (by simp [hk])]
  have hrun : run_ai_scoring db0 job_id db app_id answers (implEvaluator configured dep) =
      upsertResponses db
        ((answers.filter (fun qa => knownQuestion db0 job_id qa.question_id)).map
          (fun qa =>
            { application_id := app_id, question_id := qa.question_id,
              answer := answersLookup answers qa.question_id,
              ai_score := some (evaluate_answer configured (dep qa.question_id)).1,
              ai_reasoning := some (evaluate_answer configured (dep qa.question_id)).2 })) := by
    simp only [run_ai_scoring]
    rw [hproc, filterMap_guard, List.map_map]
    by_cases he : ((answers.filter
        (fun qa => knownQuestion db0 job_id qa.question_id)).map
        (fun qa =>
          ({ application_id := app_id, question_id := qa.question_id,
             answer := answersLookup answers qa.question_id,
             ai_score := some (evaluate_answer configured (dep qa.question_id)).1,
             ai_reasoning := some (evaluate_answer configured (dep qa.question_id)).2 }
            : AssessmentResponseRow))).isEmpty = true
    · rw [if_pos (by exact he), List.isEmpty_iff.mp he]
      rfl
    · rw [if_neg (by exact he)]
      rfl
  refine ⟨fun qa => rfl, fun cause => rfl, ?_, ?_⟩
  · intro a q
    rw [hrun]
    show (((answers.filter (fun qa => knownQuestion db0 job_id qa.question_id)).map
        _).foldl upsertResponseRow db.assessment_responses).countP (respMatches a q) ≤ 1
    exact countP_foldl_upsert_le _ _ a q (huniq a q)
  · intro q ans hknown hlast
    have hfound : ∃ qa, answers.reverse.find? (fun x => x.question_id == q) = some qa ∧
        qa.answer = ans ∧ qa.question_id = q := by
      unfold answersLookup at hlast
      cases hfind : answers.reverse.find? (fun x => x.question_id == q) with
      | none => rw [hfind] at hlast; exact Option.noConfusion hlast
      | some qa =>
          rw [hfind] at hlast
          refine ⟨qa, rfl, Option.some.inj hlast, ?_⟩
          have := List.find?_some hfind
          simpa using this
    obtain ⟨qa, hfind, hans, hqid⟩ := hfound
    rw [hrun]
    have hbf : batchFind ((answers.filter
        (fun x => knownQuestion db0 job_id x.question_id)).map
        (fun x =>
          { application_id := app_id, question_id := x.question_id,
            answer := answersLookup answers x.question_id,
            ai_score := some (evaluate_answer configured (dep x.question_id)).1,
            ai_reasoning := some (evaluate_answer configured (dep x.question_id)).2 }))
        app_id q =
        some { application_id := app_id, question_id := q, answer := some ans,
               ai_score := some (evaluate_answer configured (dep q)).1,
               ai_reasoning := some (evaluate_answer configured (dep q)).2 } := by
      rw [batchFind_filter_map]
      · rw [hfind]
        simp only [Option.map_some']
        rw [hqid]
        rw [← hans, ← hqid]
        unfold answersLookup
        rw [hqid, hfind]
        rfl
      · intro x; rfl
      · intro x; rfl
      · intro x hx
        rw [hx]
        exact hknown
    show (((answers.filter (fun x => knownQuestion db0 job_id x.question_id)).map
        _).foldl upsertResponseRow db.assessment_responses).find? (respMatches app_id q) = _
    rw [find?_foldl_upsert, hbf]
    rfl

/-- Witness for C8: in the mixed two-answer batch, the failed answer persists
with score 0 and the cause-naming reasoning while its sibling persists its
real score, each with its original answer text. -/
theorem scoring_batch_per_answer_outcomes_witness :
    knownQuestion cxDbTwoQ 0 1 = true ∧
    answersLookup [{ question_id := 1, answer := "a1" },
      { question_id := 2, answer := "a2" }] 1 = some "a1" ∧
    respFind (run_ai_scoring cxDbTwoQ 0 cxDbTwoQ 5
        [{ question_id := 1, answer := "a1" }, { question_id := 2, answer := "a2" }]
        (implEvaluator true cxDepMixed)) 5 1 =
      some { application_id := 5, question_id := 1, answer := some "a1",
             ai_score := some 0,
             ai_reasoning := some "Error during AI evaluation: boom" } ∧
    respFind (run_ai_scoring cxDbTwoQ 0 cxDbTwoQ 5
        [{ question_id := 1, answer := "a1" }, { question_id := 2, answer := "a2" }]
        (implEvaluator true cxDepMixed)) 5 2 =
      some { application_id := 5, question_id := 2, answer := some "a2",
             ai_score := some 7, ai_reasoning := some "fine" } := by
  have huniq : ∀ a q, respCount cxDbTwoQ a q ≤ 1 := by
    intro a q
    exact le_trans (List.countP_le_length _) (by decide)
  have h := scoring_batch_per_answer_outcomes cxDbTwoQ cxDbTwoQ 0 5
    [{ question_id := 1, answer := "a1" }, { question_id := 2, answer := "a2" }]
    true cxDepMixed huniq
  refine ⟨by decide, by decide, ?_, ?_⟩
  · exact h.2.2.2 1 "a1" (by decide) (by decide)
  · exact h.2.2.2 2 "a2" (by decide) (by decide)

/-- Question inserts leave the role table untouched. -/
theorem insertQuestions_job_roles (jid : Nat) (qs : List TechnicalQuestionInput) :
    ∀ db : DB, (insertQuestions db jid qs).job_roles = db.job_roles := by
  induction qs with
  | nil => intro db; rfl
  | cons q qs ih => intro db; exact ih _

/-- Question inserts leave the audit log untouched. -/
theorem insertQuestions_approval_requests (jid : Nat) (qs : List TechnicalQuestionInput) :
    ∀ db : DB, (insertQuestions db jid qs).approval_requests = db.approval_requests := by
  induction qs with
  | nil => intro db; rfl
  | cons q qs ih => intro db; exact ih _

/-- Question inserts advance the id sequence by the batch size. -/
theorem insertQuestions_next_id (jid : Nat) (qs : List TechnicalQuestionInput) :
    ∀ db : DB, (insertQuestions db jid qs).next_id = db.next_id + qs.length := by
  induction qs with
  | nil => intro db; rfl
  | cons q qs ih =>
      intro db
      show (insertQuestions _ jid qs).next_id = _
      rw [ih]
      show db.next_id + 1 + qs.length = db.next_id + (qs.length + 1)
      omega

/-- Question replacement leaves the role table untouched. -/
theorem replaceQuestions_job_roles (db : DB) (jid : Nat) (qs : List TechnicalQuestionInput) :
    (replaceQuestions db jid qs).job_roles = db.job_roles :=
  insertQuestions_job_roles jid qs _

/-- Question replacement leaves the audit log untouched. -/
theorem replaceQuestions_approval_requests (db : DB) (jid : Nat)
    (qs : List TechnicalQuestionInput) :
    (replaceQuestions db jid qs).approval_requests = db.approval_requests :=
  insertQuestions_approval_requests jid qs _

/-- Question replacement advances the id sequence by the batch size. -/
theorem replaceQuestions_next_id (db : DB) (jid : Nat) (qs : List TechnicalQuestionInput) :
    (replaceQuestions db jid qs).next_id = db.next_id + qs.length :=
  insertQuestions_next_id jid qs _

/-- The pending count only reads the audit log. -/
theorem pendingCount_eq_of_approval_requests {db db' : DB}
    (h : db'.approval_requests = db.approval_requests) (q : Nat) :
    pendingCount db' q = pendingCount db q := by
  unfold pendingCount
  rw [h]

/-- Appending one audit row adjusts the pending count of exactly its job. -/
theorem pendingCount_insertAR (db : DB) (jid requested_by : Nat) (st : Status)
    (reason : Option String) (q : Nat) :
    pendingCount (insertAR db jid requested_by st reason) q =
      pendingCount db q + (if q = jid ∧ st = Status.pending then 1 else 0) := by
  unfold pendingCount insertAR
  rw [List.countP_append]
  congr 1
  by_cases hq : q = jid ∧ st = Status.pending
  · rw [if_pos hq]
    simp [hq.1, hq.2]
  · rw [if_neg hq]
    simp only [List.countP_cons, List.countP_nil]
    rcases Decidable.not_and_iff_or_not.mp hq with h | h
    · simp [h]
      intro he
      exact absurd he.symm h
    · simp [h]

/-- Reviewing away the pending rows of one job empties its pending count. -/
theorem pendingCount_updatePendingARs_self (db : DB) (jid : Nat)
    (f : ApprovalRequest → ApprovalRequest)
    (_hid : ∀ a, (f a).job_id = a.job_id)
    (hst : ∀ a, (f a).status ≠ Status.pending) :
    pendingCount (updatePendingARs db jid f) jid = 0 := by
  unfold pendingCount updatePendingARs
  rw [List.countP_map, List.countP_eq_zero]
  intro a amem
  show ¬ ((fun x => x.job_id == jid && x.status == Status.pending)
    (if a.job_id == jid && a.status == Status.pending then f a else a) = true)
  by_cases hc : (a.job_id == jid && a.status == Status.pending) = true
  · rw [if_pos hc]
    simp only [Bool.and_eq_true, beq_iff_eq]
    intro hcontra
    exact hst a hcontra.2
  · rw [if_neg hc]
    simpa using hc

/-- Reviewing the pending rows of one job leaves other jobs' counts alone. -/
theorem pendingCount_updatePendingARs_other (db : DB) (jid : Nat)
    (f : ApprovalRequest → ApprovalRequest)
    (hid : ∀ a, (f a).job_id = a.job_id) (q : Nat) (hq : q ≠ jid) :
    pendingCount (updatePendingARs db jid f) q = pendingCount db q := by
  unfold pendingCount updatePendingARs
  rw [List.countP_map]
  apply List.countP_congr
  intro a amem
  have hbe : ((fun x => x.job_id == q && x.status == Status.pending) ∘
      (fun x => if x.job_id == jid && x.status == Status.pending then f x else x)) a =
      (a.job_id == q && a.status == Status.pending) := by
    by_cases hc : (a.job_id == jid && a.status == Status.pending) = true
    · show ((fun x => x.job_id == q && x.status == Status.pending)
        (if (a.job_id == jid && a.status == Status.pending) = true then f a else a)) = _
      rw [if_pos hc]
      have hjid : a.job_id = jid := by
        have hc' := hc
        simp only [Bool.and_eq_true, beq_iff_eq] at hc'
        exact hc'.1
      show ((f a).job_id == q && (f a).status == Status.pending) = _
      have h1 : ((f a).job_id == q) = false := by
        rw [hid a, hjid]
        simp [Ne.symm hq]
      have h2 : (a.job_id == q) = false := by
        rw [hjid]
        simp [Ne.symm hq]
      rw [h1, h2]
      simp
    · show ((fun x => x.job_id == q && x.status == Status.pending)
        (if (a.job_id == jid && a.status == Status.pending) = true then f a else a)) = _
      rw [if_neg hc]
  rw [hbe]

/-- Lookup through a conditional row update with an id-preserving transform. -/
theorem findJob_condUpdateJob (db : DB) (jid : Nat) (cond : Option Nat)
    (f : JobRole → JobRole) (hid : ∀ j, (f j).id = j.id) (q : Nat) :
    findJob (condUpdateJob db jid cond f).1 q =
      (findJob db q).map (fun j => if jobMatches jid cond j then f j else j) := by
  show (db.job_roles.map _).find? _ = _
  rw [List.find?_map]
  have hcomp : ((fun j : JobRole => j.id == q) ∘
      (fun j => if jobMatches jid cond j then f j else j)) =
      (fun j : JobRole => j.id == q) := by
    funext j
    show ((if jobMatches jid cond j = true then f j else j).id == q) = (j.id == q)
    by_cases hc : jobMatches jid cond j = true
    · rw [if_pos hc, hid j]
    · rw [if_neg hc]
  rw [hcomp]
  rfl

/-- A conditional update of one job is invisible to lookups of other ids. -/
theorem findJob_condUpdateJob_other (db : DB) (jid : Nat) (cond : Option Nat)
    (f : JobRole → JobRole) (hid : ∀ j, (f j).id = j.id) (q : Nat) (hq : q ≠ jid) :
    findJob (condUpdateJob db jid cond f).1 q = findJob db q := by
  rw [findJob_condUpdateJob db jid cond f hid q]
  cases hfind : findJob db q with
  | none => rfl
  | some j =>
      have hfind' : db.job_roles.find? (fun j => j.id == q) = some j := hfind
      have hj := List.find?_some hfind'
      have hjq : j.id = q := by simpa using hj
      have hmatch : jobMatches jid cond j = false := by
        unfold jobMatches
        rw [hjq]
        simp [hq]
      simp [hmatch]

/-- A conditional update whose filter matches the first row of the id
rewrites the lookup to the transformed row. -/
theorem findJob_condUpdateJob_self (db : DB) (jid : Nat) (cond : Option Nat)
    (f : JobRole → JobRole) (hid : ∀ j, (f j).id = j.id) (job : JobRole)
    (hfind : findJob db jid = some job) (hmatch : jobMatches jid cond job = true) :
    findJob (condUpdateJob db jid cond f).1 jid = some (f job) := by
  rw [findJob_condUpdateJob db jid cond f hid jid, hfind]
  simp [hmatch]

/-- Inversion of a successful write phase of `update_job`. -/
theorem update_job_write_ok {env1 env2 : DB → DB} {db : DB} {job_id : Nat}
    {u : JobRoleUpdate} {user : User} {job : JobRole} {db' : DB}
    (h : update_job_write env1 env2 db job_id u user job = Except.ok db') :
    u.responsibilities = none ∧ u.skills = none ∧
      db' = postEdit (env1 db) job_id u user job := by
  dsimp only [update_job_write] at h
  split at h
  · exact Except.noConfusion h
  next hrs =>
    obtain ⟨hr, hk⟩ := not_or.mp hrs
    refine ⟨not_ne_iff.mp hr, not_ne_iff.mp hk, ?_⟩
    split at h
    · split at h
      · exact Except.noConfusion h
      · exact Except.noConfusion h
    · exact (Except.ok.inj h).symm

/-- Inversion of a successful `update_job`: either the scalar patch was empty
and nothing happened, or the pre-check passed and the store is the write
phase's assembly. -/
theorem update_job_ok {db : DB} {job_id : Nat} {u : JobRoleUpdate} {user : User}
    {db' : DB} (h : update_job db job_id u user = Except.ok db') :
    ∃ job, findJob db job_id = some job ∧
      ((u.title = none ∧ u.department = none ∧ u.responsibilities = none ∧
        u.skills = none ∧ db' = db) ∨
       (¬ (u.title = none ∧ u.department = none ∧ u.responsibilities = none ∧
          u.skills = none) ∧
        u.responsibilities = none ∧ u.skills = none ∧
        (u.current_version = none ∨ u.current_version = some job.version) ∧
        db' = postEdit db job_id u user job)) := by
  unfold update_job update_job_conc at h
  split at h
  · exact Except.noConfusion h
  · split at h
    · exact Except.noConfusion h
    next job hfind =>
      split at h
      · exact Except.noConfusion h
      next hown =>
        split at h
        next hpatch => exact ⟨job, hfind, Or.inl ⟨hpatch.1, hpatch.2.1,
          hpatch.2.2.1, hpatch.2.2.2, (Except.ok.inj h).symm⟩⟩
        next hpatch =>
          split at h
          next cv hcv =>
            split at h
            · exact Except.noConfusion h
            next hne =>
              have hcveq : cv = job.version := by
                by_contra hne'
                exact hne hne'
              obtain ⟨hr, hk, hdb'⟩ := update_job_write_ok h
              refine ⟨job, hfind, Or.inr ⟨hpatch, hr, hk, Or.inr ?_, hdb'⟩⟩
              rw [hcv, hcveq]
          next hcv =>
            obtain ⟨hr, hk, hdb'⟩ := update_job_write_ok h
            exact ⟨job, hfind, Or.inr ⟨hpatch, hr, hk, Or.inl hcv, hdb'⟩⟩

/-- Inversion of a successful `update_employee_job`. -/
theorem update_employee_job_ok {db : DB} {job_id : Nat} {u : JobRoleUpdate}
    {user : User} {db' : DB}
    (h : update_employee_job db job_id u user = Except.ok db') :
    ∃ job, findJob db job_id = some job ∧ db' = postEditEmp db job_id u user job := by
  unfold update_employee_job update_employee_job_conc at h
  dsimp only [id] at h
  split at h
  · exact Except.noConfusion h
  · split at h
    · exact Except.noConfusion h
    next job hfind =>
      split at h
      · exact Except.noConfusion h
      · split at h
        · exact Except.noConfusion h
        · exact ⟨job, hfind, (Except.ok.inj h).symm⟩

/-- Inversion of a successful `approve_job`. -/
theorem approve_job_ok {db : DB} {job_id : Nat} {user : User} {now : Nat} {db' : DB}
    (h : approve_job db job_id user now = Except.ok db') :
    ∃ job, findJob db job_id = some job ∧ job.status ≠ Status.approved ∧
      db' = postApprove db job_id user now job := by
  unfold approve_job at h
  split at h
  · exact Except.noConfusion h
  · split at h
    · exact Except.noConfusion h
    next job hfind =>
      split at h
      · exact Except.noConfusion h
      next hst => exact ⟨job, hfind, hst, (Except.ok.inj h).symm⟩

/-- Inversion of a successful `reject_job`. -/
theorem reject_job_ok {db : DB} {job_id : Nat} {reason : String} {user : User}
    {now : Nat} {db' : DB}
    (h : reject_job db job_id reason user now = Except.ok db') :
    ∃ job, findJob db job_id = some job ∧ job.status ≠ Status.rejected ∧
      db' = postReject db job_id reason user now job := by
  unfold reject_job at h
  split at h
  · exact Except.noConfusion h
  · split at h
    · exact Except.noConfusion h
    next job hfind =>
      split at h
      · exact Except.noConfusion h
      next hst => exact ⟨job, hfind, hst, (Except.ok.inj h).symm⟩

/-- Inversion of a successful `create_job`. -/
theorem create_job_ok {db : DB} {job : JobRoleCreate} {user : User} {db' : DB} {jid : Nat}
    (h : create_job db job user = Except.ok (db', jid)) :
    jid = db.next_id ∧ db' = postCreate db job user := by
  unfold create_job at h
  split at h
  · exact Except.noConfusion h
  · have := Except.ok.inj h
    exact ⟨(Prod.mk.injEq _ _ _ _ ▸ this).2.symm, (Prod.mk.injEq _ _ _ _ ▸ this).1.symm⟩

/-- Lookups only read the role table. -/
theorem findJob_eq_of_job_roles {db db' : DB} (h : db'.job_roles = db.job_roles)
    (q : Nat) : findJob db' q = findJob db q := by
  unfold findJob
  rw [h]

/-- A found role carries the looked-up id. -/
theorem findJob_id {db : DB} {q : Nat} {job : JobRole}
    (h : findJob db q = some job) : job.id = q := by
  unfold findJob at h
  simpa using List.find?_some h

/-- A role matches its own id filter without a version condition. -/
theorem jobMatches_none_self {jid : Nat} {job : JobRole} (h : job.id = jid) :
    jobMatches jid none job = true := by
  simp [jobMatches, h]

/-- A role matches its own id filter conditioned on its own version. -/
theorem jobMatches_some_self {jid : Nat} {job : JobRole} (h : job.id = jid) :
    jobMatches jid (some job.version) job = true := by
  simp [jobMatches, h]

/-- The edited row keeps its id. -/
theorem editedRow_id (u : JobRoleUpdate) (w : Bool) (v : Nat) (j : JobRole) :
    (editedRow u w v j).id = j.id := by
  unfold editedRow
  cases w <;> rfl

/-- The edited row carries the computed version. -/
theorem editedRow_version (u : JobRoleUpdate) (w : Bool) (v : Nat) (j : JobRole) :
    (editedRow u w v j).version = v := by
  unfold editedRow
  cases w <;> rfl

/-- The reset applied when the read saw an approved role. -/
theorem editedRow_approved_fields (u : JobRoleUpdate) (v : Nat) (j : JobRole) :
    (editedRow u true v j).status = Status.pending ∧
    (editedRow u true v j).approved_by = none ∧
    (editedRow u true v j).approved_at = none := by
  exact ⟨rfl, rfl, rfl⟩

/-- No reset happens for a role that was not approved. -/
theorem editedRow_status_of_not_approved (u : JobRoleUpdate) (v : Nat) (j : JobRole) :
    (editedRow u false v j).status = j.status := rfl

/-- The role table after the jobs-route edit assembly is the conditional
update's role table. -/
theorem postEdit_job_roles (db : DB) (jid : Nat) (u : JobRoleUpdate) (user : User)
    (job : JobRole) :
    (postEdit db jid u user job).job_roles =
      ((condUpdateJob db jid u.current_version
        (editedRow u (job.status == Status.approved) (job.version + 1))).1).job_roles := by
  dsimp only [postEdit]
  cases u.technical_questions with
  | none =>
      by_cases hw : (job.status == Status.approved) = true
      · rw [if_pos hw]
        rfl
      · rw [if_neg hw]
  | some qs =>
      rw [replaceQuestions_job_roles]
      by_cases hw : (job.status == Status.approved) = true
      · rw [if_pos hw]
        rfl
      · rw [if_neg hw]

/-- The audit log after the jobs-route edit assembly: unchanged, or extended
by exactly the re-approval request when the read saw `approved`. -/
theorem postEdit_approval_requests (db : DB) (jid : Nat) (u : JobRoleUpdate)
    (user : User) (job : JobRole) :
    (postEdit db jid u user job).approval_requests =
      (if job.status == Status.approved then
        db.approval_requests ++
          [{ id := db.next_id, job_id := jid, requested_by := user.id,
             status := Status.pending, reason := some "Re-approval required after edit",
             reviewed_by := none, reviewed_at := none }]
       else db.approval_requests) := by
  dsimp only [postEdit]
  cases u.technical_questions with
  | none =>
      by_cases hw : (job.status == Status.approved) = true
      · rw [if_pos hw, if_pos hw]
        rfl
      · rw [if_neg hw, if_neg hw]
        rfl
  | some qs =>
      rw [replaceQuestions_approval_requests]
      by_cases hw : (job.status == Status.approved) = true
      · rw [if_pos hw, if_pos hw]
        rfl
      · rw [if_neg hw, if_neg hw]
        rfl

/-- The role table after the employee edit assembly. -/
theorem postEditEmp_job_roles (db : DB) (jid : Nat) (u : JobRoleUpdate) (user : User)
    (job : JobRole) :
    (postEditEmp db jid u user job).job_roles =
      ((condUpdateJob db jid none
        (editedRow u (job.status == Status.approved) (job.version + 1))).1).job_roles := by
  dsimp only [postEditEmp]
  cases u.technical_questions with
  | none =>
      by_cases hw : (job.status == Status.approved) = true
      · rw [if_pos hw]
        rfl
      · rw [if_neg hw]
  | some qs =>
      by_cases hw : (job.status == Status.approved) = true
      · rw [if_pos hw]
        show (replaceQuestions _ jid qs).job_roles = _
        rw [replaceQuestions_job_roles]
      · rw [if_neg hw]
        exact replaceQuestions_job_roles _ jid qs

/-- The audit log after the employee edit assembly. -/
theorem postEditEmp_approval_requests (db : DB) (jid : Nat) (u : JobRoleUpdate)
    (user : User) (job : JobRole) :
    (postEditEmp db jid u user job).approval_requests =
      (if job.status == Status.approved then
        db.approval_requests ++
          [{ id := (match u.technical_questions with
                    | none => db.next_id
                    | some qs => db.next_id + qs.length),
             job_id := jid, requested_by := user.id,
             status := Status.pending, reason := some "Re-approval required after edit",
             reviewed_by := none, reviewed_at := none }]
       else db.approval_requests) := by
  dsimp only [postEditEmp]
  cases u.technical_questions with
  | none =>
      by_cases hw : (job.status == Status.approved) = true
      · rw [if_pos hw, if_pos hw]
        rfl
      · rw [if_neg hw, if_neg hw]
        rfl
  | some qs =>
      by_cases hw : (job.status == Status.approved) = true
      · rw [if_pos hw, if_pos hw]
        show ((replaceQuestions (condUpdateJob db jid none
            (editedRow u (job.status == Status.approved) (job.version + 1))).1 jid
              qs).approval_requests ++
          [{ id := (replaceQuestions (condUpdateJob db jid none
                (editedRow u (job.status == Status.approved) (job.version + 1))).1 jid
                  qs).next_id,
             job_id := jid, requested_by := user.id, status := Status.pending,
             reason := some "Re-approval required after edit",
             reviewed_by := none, reviewed_at := none }]) = _
        rw [replaceQuestions_approval_requests, replaceQuestions_next_id]
        rfl
      · rw [if_neg hw, if_neg hw]
        exact replaceQuestions_approval_requests _ jid qs

/-- C1 (amended): when the patch carries at least one field that enters the
handler's row-update dict — any field other than `technical_questions` and
`current_version`, so `responsibilities` and `skills` count — a supplied
expected version mismatching the stored one fails with Conflict before any
write reaches the store; and whenever the conditional update affects zero
rows (on a patch free of the misincluded child fields, so that the write
itself runs), the write phase disambiguates by re-reading — Conflict if the
job still exists at the re-read, NotFound otherwise.  (A patch carrying only
`technical_questions` and/or `current_version` leaves the dict empty and the
handler returns the unchanged row before the version check; see the
counterexample.) -/
theorem update_job_version_check_and_zero_row_disambiguation :
    (∀ (db : DB) (job_id : Nat) (u : JobRoleUpdate) (user : User) (job : JobRole)
        (cv : Nat),
      isEmployeeOrAdmin user →
      findJob db job_id = some job →
      (job.created_by = user.id ∨ user.role = Role.admin) →
      ¬ (u.title = none ∧ u.department = none ∧ u.responsibilities = none ∧
        u.skills = none) →
      u.current_version = some cv →
      cv ≠ job.version →
      update_job db job_id u user = Except.error (HErr.conflict
        "This job has been modified by another user. Please refresh and try again.")) ∧
    (∀ (env1 env2 : DB → DB) (db : DB) (job_id : Nat) (u : JobRoleUpdate)
        (user : User) (job : JobRole),
      u.responsibilities = none →
      u.skills = none →
      (condUpdateJob (env1 db) job_id u.current_version
        (editedRow u (job.status == Status.approved) (job.version + 1))).2 = 0 →
      update_job_write env1 env2 db job_id u user job =
        (match findJob (env2 (condUpdateJob (env1 db) job_id u.current_version
            (editedRow u (job.status == Status.approved) (job.version + 1))).1)
            job_id with
         | some _ => Except.error (HErr.conflict
             "This job has been modified by another user. Please refresh and try again.")
         | none => Except.error (HErr.notFound "Job not found"))) := by
  constructor
  · intro db job_id u user job cv hrole hfind hown hpatch hcv hne
    simp only [update_job, update_job_conc, hfind, hcv]
    rw [if_neg (not_not_intro hrole)]
    rw [if_neg (by rcases hown with h | h <;> simp [h])]
    rw [if_neg hpatch]
    rw [if_pos hne]
  · intro env1 env2 db job_id u user job hresp hskl hzero
    dsimp only [update_job_write]
    rw [if_neg (by simp [hresp, hskl])]
    rw [if_pos hzero]

/-- Witness for C1: a stale expected version on a scalar patch conflicts; a
conditional write made stale by interference re-reads and reports Conflict
while a vanished row reports NotFound. -/
theorem update_job_version_check_witness :
    update_job cxDbPending 0 cxScalarPatch999 cxOwner = Except.error (HErr.conflict
      "This job has been modified by another user. Please refresh and try again.") ∧
    update_job_write (fun _ => cxDbApproved) id cxDbPending 0 cxScalarPatchV1 cxOwner
      cxJobPending = Except.error (HErr.conflict
      "This job has been modified by another user. Please refresh and try again.") ∧
    update_job_write (fun _ => cxDbApproved) (fun _ => emptyDB) cxDbPending 0
      cxScalarPatchV1 cxOwner cxJobPending =
      Except.error (HErr.notFound "Job not found") := by
  refine ⟨?_, ?_, ?_⟩
  · exact update_job_version_check_and_zero_row_disambiguation.1 cxDbPending 0
      cxScalarPatch999 cxOwner cxJobPending 999 (by decide) (by decide)
      (Or.inl (by decide)) (by decide) rfl (by decide)
  · have h := update_job_version_check_and_zero_row_disambiguation.2
      (fun _ => cxDbApproved) id cxDbPending 0 cxScalarPatchV1 cxOwner cxJobPending
      rfl rfl (by decide)
    rw [h]
    decide
  · have h := update_job_version_check_and_zero_row_disambiguation.2
      (fun _ => cxDbApproved) (fun _ => emptyDB) cxDbPending 0 cxScalarPatchV1 cxOwner
      cxJobPending rfl rfl (by decide)
    rw [h]
    decide

/-- The role row the jobs-route edit leaves for the edited id. -/
theorem findJob_postEdit_self {db : DB} {jid : Nat} {u : JobRoleUpdate} {user : User}
    {job : JobRole} (hfind : findJob db jid = some job)
    (hcv : u.current_version = none ∨ u.current_version = some job.version) :
    findJob (postEdit db jid u user job) jid =
      some (editedRow u (job.status == Status.approved) (job.version + 1) job) := by
  rw [findJob_eq_of_job_roles (postEdit_job_roles db jid u user job) jid]
  refine findJob_condUpdateJob_self db jid u.current_version _
    (fun j => editedRow_id u _ _ j) job hfind ?_
  rcases hcv with h | h
  · rw [h]
    exact jobMatches_none_self (findJob_id hfind)
  · rw [h]
    exact jobMatches_some_self (findJob_id hfind)

/-- The role row the employee edit leaves for the edited id. -/
theorem findJob_postEditEmp_self {db : DB} {jid : Nat} {u : JobRoleUpdate}
    {user : User} {job : JobRole} (hfind : findJob db jid = some job) :
    findJob (postEditEmp db jid u user job) jid =
      some (editedRow u (job.status == Status.approved) (job.version + 1) job) := by
  rw [findJob_eq_of_job_roles (postEditEmp_job_roles db jid u user job) jid]
  exact findJob_condUpdateJob_self db jid none _ (fun j => editedRow_id u _ _ j) job
    hfind (jobMatches_none_self (findJob_id hfind))

/-- The role row `approve_job` leaves for the approved id. -/
theorem findJob_postApprove_self {db : DB} {jid : Nat} {user : User} {now : Nat}
    {job : JobRole} (hfind : findJob db jid = some job) :
    findJob (postApprove db jid user now job) jid =
      some { job with
        status := Status.approved, approved_by := some user.id,
        approved_at := some now, rejection_reason := none,
        version := job.version + 1 } := by
  exact findJob_condUpdateJob_self db jid none
    (fun j => { j with
      status := Status.approved, approved_by := some user.id,
      approved_at := some now, rejection_reason := none,
      version := job.version + 1 })
    (fun j => rfl) job hfind (jobMatches_none_self (findJob_id hfind))

/-- The role row `reject_job` leaves for the rejected id. -/
theorem findJob_postReject_self {db : DB} {jid : Nat} {reason : String} {user : User}
    {now : Nat} {job : JobRole} (hfind : findJob db jid = some job) :
    findJob (postReject db jid reason user now job) jid =
      some { job with
        status := Status.rejected, rejection_reason := some reason,
        approved_by := none, approved_at := none,
        version := job.version + 1 } := by
  exact findJob_condUpdateJob_self db jid none
    (fun j => { j with
      status := Status.rejected, rejection_reason := some reason,
      approved_by := none, approved_at := none,
      version := job.version + 1 })
    (fun j => rfl) job hfind (jobMatches_none_self (findJob_id hfind))

/-- The role table `create_job` leaves behind. -/
theorem postCreate_job_roles (db : DB) (job : JobRoleCreate) (user : User) :
    (postCreate db job user).job_roles = db.job_roles ++
      [{ id := db.next_id, title := job.title, department := job.department,
         status := Status.pending, is_open := true, version := 1,
         created_by := user.id, approved_by := none, approved_at := none,
         rejection_reason := none, closed_at := none }] :=
  insertQuestions_job_roles _ _ _

/-- The role row `create_job` leaves for the fresh id, provided the id really
is fresh. -/
theorem findJob_postCreate_self {db : DB} {job : JobRoleCreate} {user : User}
    (hfresh : ∀ j ∈ db.job_roles, j.id < db.next_id) :
    findJob (postCreate db job user) db.next_id =
      some { id := db.next_id, title := job.title, department := job.department,
             status := Status.pending, is_open := true, version := 1,
             created_by := user.id, approved_by := none, approved_at := none,
             rejection_reason := none, closed_at := none } := by
  unfold findJob
  rw [postCreate_job_roles db job user, List.find?_append]
  have hnone : db.job_roles.find? (fun j => j.id == db.next_id) = none := by
    rw [List.find?_eq_none]
    intro j hj
    have hlt := hfresh j hj
    simp
    omega
  rw [hnone]
  simp

/-- C5 (amended): create initializes the version to 1; a jobs-route edit with
a non-empty scalar patch, an employee edit with any patch, an approve, and a
reject each increment the stored version by exactly 1; close leaves the
version unchanged; and a jobs-route edit whose patch has no scalar field
leaves the store untouched. -/
theorem version_increment_per_mutation :
    (∀ (db : DB) (job : JobRoleCreate) (user : User) (db' : DB) (jid : Nat),
      (∀ j ∈ db.job_roles, j.id < db.next_id) →
      create_job db job user = Except.ok (db', jid) →
      (findJob db' jid).map JobRole.version = some 1) ∧
    (∀ (db : DB) (job_id : Nat) (u : JobRoleUpdate) (user : User) (job : JobRole)
        (db' : DB),
      findJob db job_id = some job →
      ¬ (u.title = none ∧ u.department = none) →
      update_job db job_id u user = Except.ok db' →
      (findJob db' job_id).map JobRole.version = some (job.version + 1)) ∧
    (∀ (db : DB) (job_id : Nat) (u : JobRoleUpdate) (user : User) (job : JobRole)
        (db' : DB),
      findJob db job_id = some job →
      update_employee_job db job_id u user = Except.ok db' →
      (findJob db' job_id).map JobRole.version = some (job.version + 1)) ∧
    (∀ (db : DB) (job_id : Nat) (user : User) (now : Nat) (job : JobRole) (db' : DB),
      findJob db job_id = some job →
      approve_job db job_id user now = Except.ok db' →
      (findJob db' job_id).map JobRole.version = some (job.version + 1)) ∧
    (∀ (db : DB) (job_id : Nat) (reason : String) (user : User) (now : Nat)
        (job : JobRole) (db' : DB),
      findJob db job_id = some job →
      reject_job db job_id reason user now = Except.ok db' →
      (findJob db' job_id).map JobRole.version = some (job.version + 1)) ∧
    (∀ (db : DB) (job_id : Nat) (user : User) (now : Nat) (db' : DB),
      close_job db job_id user now = Except.ok db' →
      (findJob db' job_id).map JobRole.version =
        (findJob db job_id).map JobRole.version) ∧
    (∀ (db : DB) (job_id : Nat) (u : JobRoleUpdate) (user : User) (db' : DB),
      u.title = none → u.department = none →
      update_job db job_id u user = Except.ok db' → db' = db) := by
  refine ⟨?_, ?_, ?_, ?_, ?_, ?_, ?_⟩
  · intro db job user db' jid hfresh h
    obtain ⟨hjid, hdb'⟩ := create_job_ok h
    rw [hdb', hjid, findJob_postCreate_self hfresh]
    rfl
  · intro db job_id u user job db' hfind hpatch h
    obtain ⟨job2, hfind2, hcase⟩ := update_job_ok h
    rw [hfind] at hfind2
    obtain rfl : job = job2 := (Option.some.inj hfind2)
    rcases hcase with ⟨h1, h2, _, _, _⟩ | ⟨_, _, _, hcv, hdb'⟩
    · exact absurd ⟨h1, h2⟩ hpatch
    · rw [hdb', findJob_postEdit_self hfind hcv]
      rw [Option.map_some', editedRow_version]
  · intro db job_id u user job db' hfind h
    obtain ⟨job2, hfind2, hdb'⟩ := update_employee_job_ok h
    rw [hfind] at hfind2
    obtain rfl : job = job2 := (Option.some.inj hfind2)
    rw [hdb', findJob_postEditEmp_self hfind]
    rw [Option.map_some', editedRow_version]
  · intro db job_id user now job db' hfind h
    obtain ⟨job2, hfind2, _, hdb'⟩ := approve_job_ok h
    rw [hfind] at hfind2
    obtain rfl : job = job2 := (Option.some.inj hfind2)
    rw [hdb', findJob_postApprove_self hfind]
    rfl
  · intro db job_id reason user now job db' hfind h
    obtain ⟨job2, hfind2, _, hdb'⟩ := reject_job_ok h
    rw [hfind] at hfind2
    obtain rfl : job = job2 := (Option.some.inj hfind2)
    rw [hdb', findJob_postReject_self hfind]
    rfl
  · intro db job_id user now db' h
    dsimp only [close_job] at h
    split at h
    · exact Except.noConfusion h
    · split at h
      · exact Except.noConfusion h
      · obtain rfl : (condUpdateJob db job_id none
            (fun j => { j with is_open := false, closed_at := some now })).1 = db' :=
          Except.ok.inj h
        rw [findJob_condUpdateJob db job_id none
          (fun j => { j with is_open := false, closed_at := some now })
          (fun j => rfl) job_id]
        cases hfind : findJob db job_id with
        | none => rfl
        | some j =>
            rw [Option.map_some', Option.map_some']
            by_cases hm : jobMatches job_id none j = true
            · rw [if_pos hm]
              rfl
            · rw [if_neg hm]
              rfl
  · intro db job_id u user db' h1 h2 h
    obtain ⟨job, hfind, hcase⟩ := update_job_ok h
    rcases hcase with ⟨_, _, _, _, hdb'⟩ | ⟨hne, hr, hk, _, _⟩
    · exact hdb'
    · exact absurd ⟨h1, h2, hr, hk⟩ hne

/-- Witness for C5: concrete runs of each mutation on the fixture store. -/
theorem version_increment_per_mutation_witness :
    (findJob (postCreate cxDbPending cxNewJob cxOwner) 2).map JobRole.version =
      some 1 ∧
    (findJob cxDbAfterEdit1 0).map JobRole.version = some 3 ∧
    (close_job cxDbApproved 0 cxHr 7).map
      (fun d => (findJob d 0).map JobRole.version) = Except.ok (some 2) := by
  refine ⟨?_, ?_, ?_⟩
  · exact version_increment_per_mutation.1 cxDbPending cxNewJob cxOwner
      (postCreate cxDbPending cxNewJob cxOwner) 2 (by decide) (by decide)
  · have h := version_increment_per_mutation.2.1 cxDbApproved 0 cxPatch1 cxOwner
      cxJobApproved cxDbAfterEdit1 (by decide) (by decide) (by decide)
    rw [h]
    decide
  · have h := version_increment_per_mutation.2.2.2.2.2.1 cxDbApproved 0 cxHr 7
      (match close_job cxDbApproved 0 cxHr 7 with
       | Except.ok d => d
       | Except.error _ => cxDbApproved) (by decide)
    rw [show close_job cxDbApproved 0 cxHr 7 = Except.ok
      (match close_job cxDbApproved 0 cxHr 7 with
       | Except.ok d => d
       | Except.error _ => cxDbApproved) from by decide]
    show Except.ok (Option.map JobRole.version (findJob
      (match close_job cxDbApproved 0 cxHr 7 with
       | Except.ok d => d
       | Except.error _ => cxDbApproved) 0)) = Except.ok (some 2)
    rw [h]
    decide

/-- C2 (amended): a jobs-route edit of an approved role with a non-empty
scalar patch, and an employee-route edit of an approved role with any patch,
each reset the role to pending, clear the approval stamps, and append exactly
one pending re-approval request; an edit of a role that was not approved
never touches the audit log; a jobs-route patch carrying `responsibilities`
or `skills` — copied, not excluded, into the row update — never succeeds: the
store rejects the write and the call fails with the generic 500, resetting
nothing and inserting nothing. -/
theorem edit_resets_approval_and_audit_insertion :
    (∀ (db : DB) (job_id : Nat) (u : JobRoleUpdate) (user : User) (job : JobRole)
        (db' : DB),
      findJob db job_id = some job →
      job.status = Status.approved →
      ¬ (u.title = none ∧ u.department = none) →
      update_job db job_id u user = Except.ok db' →
      (findJob db' job_id).map JobRole.status = some Status.pending ∧
      (findJob db' job_id).map JobRole.approved_by = some none ∧
      (findJob db' job_id).map JobRole.approved_at = some none ∧
      db'.approval_requests = db.approval_requests ++
        [{ id := db.next_id, job_id := job_id, requested_by := user.id,
           status := Status.pending, reason := some "Re-approval required after edit",
           reviewed_by := none, reviewed_at := none }]) ∧
    (∀ (db : DB) (job_id : Nat) (u : JobRoleUpdate) (user : User) (job : JobRole)
        (db' : DB),
      findJob db job_id = some job →
      job.status ≠ Status.approved →
      update_job db job_id u user = Except.ok db' →
      db'.approval_requests = db.approval_requests) ∧
    (∀ (db : DB) (job_id : Nat) (u : JobRoleUpdate) (user : User) (job : JobRole)
        (db' : DB),
      findJob db job_id = some job →
      job.status = Status.approved →
      update_employee_job db job_id u user = Except.ok db' →
      (findJob db' job_id).map JobRole.status = some Status.pending ∧
      (findJob db' job_id).map JobRole.approved_by = some none ∧
      (findJob db' job_id).map JobRole.approved_at = some none ∧
      ∃ arid, db'.approval_requests = db.approval_requests ++
        [{ id := arid, job_id := job_id, requested_by := user.id,
           status := Status.pending, reason := some "Re-approval required after edit",
           reviewed_by := none, reviewed_at := none }]) ∧
    (∀ (db : DB) (job_id : Nat) (u : JobRoleUpdate) (user : User) (job : JobRole)
        (db' : DB),
      findJob db job_id = some job →
      job.status ≠ Status.approved →
      update_employee_job db job_id u user = Except.ok db' →
      db'.approval_requests = db.approval_requests) ∧
    (∀ (db : DB) (job_id : Nat) (u : JobRoleUpdate) (user : User) (job : JobRole),
      isEmployeeOrAdmin user →
      findJob db job_id = some job →
      (job.created_by = user.id ∨ user.role = Role.admin) →
      (u.responsibilities ≠ none ∨ u.skills ≠ none) →
      (u.current_version = none ∨ u.current_version = some job.version) →
      update_job db job_id u user =
        Except.error (HErr.internal "Failed to update job")) := by
  refine ⟨?_, ?_, ?_, ?_, ?_⟩
  · intro db job_id u user job db' hfind hst hpatch h
    obtain ⟨job2, hfind2, hcase⟩ := update_job_ok h
    rw [hfind] at hfind2
    obtain rfl : job = job2 := Option.some.inj hfind2
    rcases hcase with ⟨h1, h2, _, _, _⟩ | ⟨_, _, _, hcv, hdb'⟩
    · exact absurd ⟨h1, h2⟩ hpatch
    · have hw : (job.status == Status.approved) = true := by
        rw [hst]
        rfl
      have hfj := @findJob_postEdit_self db job_id u user job hfind hcv
      rw [hw] at hfj
      refine ⟨?_, ?_, ?_, ?_⟩
      · rw [hdb', hfj]
        rfl
      · rw [hdb', hfj]
        rfl
      · rw [hdb', hfj]
        rfl
      · rw [hdb', postEdit_approval_requests, if_pos hw]
  · intro db job_id u user job db' hfind hst h
    obtain ⟨job2, hfind2, hcase⟩ := update_job_ok h
    rw [hfind] at hfind2
    obtain rfl : job = job2 := Option.some.inj hfind2
    rcases hcase with ⟨_, _, _, _, hdb'⟩ | ⟨_, _, _, _, hdb'⟩
    · rw [hdb']
    · have hw : (job.status == Status.approved) = false := by
        rw [beq_eq_false_iff_ne]
        exact hst
      rw [hdb', postEdit_approval_requests, if_neg (by rw [hw]; exact Bool.false_ne_true)]
  · intro db job_id u user job db' hfind hst h
    obtain ⟨job2, hfind2, hdb'⟩ := update_employee_job_ok h
    rw [hfind] at hfind2
    obtain rfl : job = job2 := Option.some.inj hfind2
    have hw : (job.status == Status.approved) = true := by
      rw [hst]
      rfl
    have hfj := @findJob_postEditEmp_self db job_id u user job hfind
    rw [hw] at hfj
    refine ⟨?_, ?_, ?_, ?_⟩
    · rw [hdb', hfj]
      rfl
    · rw [hdb', hfj]
      rfl
    · rw [hdb', hfj]
      rfl
    · refine ⟨(match u.technical_questions with
        | none => db.next_id
        | some qs => db.next_id + qs.length), ?_⟩
      rw [hdb', postEditEmp_approval_requests, if_pos hw]
  · intro db job_id u user job db' hfind hst h
    obtain ⟨job2, hfind2, hdb'⟩ := update_employee_job_ok h
    rw [hfind] at hfind2
    obtain rfl : job = job2 := Option.some.inj hfind2
    have hw : (job.status == Status.approved) = false := by
      rw [beq_eq_false_iff_ne]
      exact hst
    rw [hdb', postEditEmp_approval_requests, if_neg (by rw [hw]; exact Bool.false_ne_true)]
  · intro db job_id u user job hrole hfind hown hrs hcv
    have hdict : ¬ (u.title = none ∧ u.department = none ∧
        u.responsibilities = none ∧ u.skills = none) := by
      intro hcc
      rcases hrs with h | h
      · exact h hcc.2.2.1
      · exact h hcc.2.2.2
    rcases hcv with hcv | hcv
    · simp only [update_job, update_job_conc, hfind, hcv]
      rw [if_neg (not_not_intro hrole)]
      rw [if_neg (by rcases hown with h | h <;> simp [h])]
      rw [if_neg hdict]
      dsimp only [update_job_write]
      rw [if_pos hrs]
    · simp only [update_job, update_job_conc, hfind, hcv]
      rw [if_neg (not_not_intro hrole)]
      rw [if_neg (by rcases hown with h | h <;> simp [h])]
      rw [if_neg hdict]
      rw [if_neg (not_not_intro rfl)]
      dsimp only [update_job_write]
      rw [if_pos hrs]

/-- Witness for C2: the first concurrent edit of the approved fixture job
resets it and logs one re-approval request; an employee-route child-only edit
does the same; a responsibilities-only jobs-route patch of the approved job
fails with the generic 500. -/
theorem edit_resets_approval_witness :
    ((findJob cxDbAfterEdit1 0).map JobRole.status = some Status.pending ∧
      (findJob cxDbAfterEdit1 0).map JobRole.approved_by = some none ∧
      pendingCount cxDbAfterEdit1 0 = 1) ∧
    ((findJob cxDbEmpEdited 0).map JobRole.status = some Status.pending ∧
      pendingCount cxDbEmpEdited 0 = 1) ∧
    update_job cxDbApproved 0 cxRespPatch cxOwner =
      Except.error (HErr.internal "Failed to update job") := by
  have ha := edit_resets_approval_and_audit_insertion.1 cxDbApproved 0 cxPatch1
    cxOwner cxJobApproved cxDbAfterEdit1 (by decide) (by decide) (by decide) (by decide)
  have hc := edit_resets_approval_and_audit_insertion.2.2.1 cxDbApproved 0
    cxChildPatchNoCv cxOwner cxJobApproved cxDbEmpEdited (by decide) (by decide)
    (by decide)
  have he := edit_resets_approval_and_audit_insertion.2.2.2.2 cxDbApproved 0
    cxRespPatch cxOwner cxJobApproved (by decide) (by decide)
    (Or.inl (by decide)) (Or.inl (by decide)) (Or.inl rfl)
  refine ⟨⟨ha.1, ha.2.1, ?_⟩, ⟨hc.1, ?_⟩, he⟩
  · have := ha.2.2.2
    rw [pendingCount, this]
    decide
  · obtain ⟨arid, har⟩ := hc.2.2.2
    rw [pendingCount, har]
    rw [List.countP_append]
    have h0 : List.countP (fun a => a.job_id == 0 && a.status == Status.pending)
        cxDbApproved.approval_requests = 0 := by decide
    have h1 : List.countP (fun a => a.job_id == 0 && a.status == Status.pending)
        [({ id := arid, job_id := 0, requested_by := cxOwner.id,
            status := Status.pending,
            reason := some "Re-approval required after edit", reviewed_by := none,
            reviewed_at := none } : ApprovalRequest)] = 1 := by
      rw [List.countP_cons]
      simp
    rw [h0, h1]

/-- A pair absent from the pre-check has no stored rows. -/
theorem applicationExists_false_count {db : DB} {jid uid : Nat}
    (h : applicationExists db jid uid = false) :
    applicationCount db jid uid = 0 := by
  unfold applicationCount
  rw [List.countP_eq_zero]
  intro a amem
  intro hpa
  have : applicationExists db jid uid = true :=
    List.any_eq_true.mpr ⟨a, amem, hpa⟩
  rw [h] at this
  exact Bool.noConfusion this

/-- C6 (amended): a role that is not both approved and open rejects the
application with a 400 domain error; a duplicate pair caught by the pre-check
fails with Conflict; a successful apply starts from a pair count of 0 and
leaves exactly 1; and a duplicate that reaches the store insert — the
pre-check having read before a concurrent insert landed — raises the modelled
unique-constraint violation, which the generic exception handler surfaces as
a 500 internal error rather than a Conflict. -/
theorem apply_uniqueness_and_errors :
    (∀ (db : DB) (job_id : Nat) (user : User) (cl ru ph lu : Option String)
        (job : JobRole),
      findJob db job_id = some job →
      (job.status ≠ Status.approved ∨ job.is_open = false) →
      apply_for_job db job_id user cl ru ph lu =
        Except.error (HErr.badRequest "Job is not accepting applications")) ∧
    (∀ (db : DB) (job_id : Nat) (user : User) (cl ru ph lu : Option String)
        (job : JobRole),
      findJob db job_id = some job →
      job.status = Status.approved → job.is_open = true →
      applicationExists db job_id user.id = true →
      apply_for_job db job_id user cl ru ph lu =
        Except.error (HErr.conflict "You have already applied for this job")) ∧
    (∀ (db : DB) (job_id : Nat) (user : User) (cl ru ph lu : Option String)
        (db' : DB),
      apply_for_job db job_id user cl ru ph lu = Except.ok db' →
      applicationCount db job_id user.id = 0 ∧
      applicationCount db' job_id user.id = 1) ∧
    (∀ (env : DB → DB) (db : DB) (job_id : Nat) (user : User)
        (cl ru ph lu : Option String) (job : JobRole),
      findJob db job_id = some job →
      job.status = Status.approved → job.is_open = true →
      applicationExists db job_id user.id = false →
      applicationExists (env db) job_id user.id = true →
      apply_for_job_conc env db job_id user cl ru ph lu =
        Except.error (HErr.internal "Application submission failed")) := by
  refine ⟨?_, ?_, ?_, ?_⟩
  · intro db job_id user cl ru ph lu job hfind hcond
    simp only [apply_for_job, apply_for_job_conc, hfind]
    rw [if_pos hcond]
  · intro db job_id user cl ru ph lu job hfind hst hopen hex
    simp only [apply_for_job, apply_for_job_conc, hfind]
    rw [if_neg (by rw [hst, hopen]; simp), if_pos hex]
  · intro db job_id user cl ru ph lu db' h
    unfold apply_for_job apply_for_job_conc at h
    split at h
    · exact Except.noConfusion h
    · split at h
      · exact Except.noConfusion h
      next job hfind hcond =>
        split at h
        · exact Except.noConfusion h
        next hex =>
          have hex' : applicationExists db job_id user.id = false := by
            simpa using hex
          dsimp only [id] at h
          unfold insertApplication at h
          split at h
          next db2 hif =>
            obtain rfl : db2 = db' := Except.ok.inj h
            split at hif
            · exact Except.noConfusion hif
            next hex2 =>
              obtain rfl := Except.ok.inj hif
              constructor
              · exact applicationExists_false_count hex'
              · have h0 := applicationExists_false_count hex'
                unfold applicationCount at h0 ⊢
                show List.countP _ (db.job_applications ++ [_]) = 1
                rw [List.countP_append, h0]
                simp
          next e hif =>
            exact Except.noConfusion h
  · intro env db job_id user cl ru ph lu job hfind hst hopen hpre hex2
    simp only [apply_for_job_conc, hfind]
    rw [if_neg (by rw [hst, hopen]; simp)]
    rw [if_neg (by rw [hpre]; exact Bool.false_ne_true)]
    unfold insertApplication
    rw [if_pos hex2]

/-- Witness for C6: the fixture apply goes from zero rows to one; the
interleaved duplicate surfaces as a 500. -/
theorem apply_uniqueness_witness :
    (applicationCount cxDbApproved 0 30 = 0 ∧
      applicationCount cxDbApplied 0 30 = 1) ∧
    apply_for_job_conc (fun _ => cxDbApplied) cxDbApproved 0 cxCand
      none none none none =
      Except.error (HErr.internal "Application submission failed") := by
  constructor
  · exact apply_uniqueness_and_errors.2.2.1 cxDbApproved 0 cxCand none none none none
      cxDbApplied (by decide)
  · exact apply_uniqueness_and_errors.2.2.2 (fun _ => cxDbApplied) cxDbApproved 0
      cxCand none none none none cxJobApproved (by decide) (by decide) (by decide)
      (by decide) (by decide)

/-- A conditional write on version `e` affects no rows when none holds `e`. -/
theorem noRow_condUpdate_zero {db : DB} {job_id e : Nat} (f : JobRole → JobRole)
    (h : noRowAtVersion db job_id e) :
    (condUpdateJob db job_id (some e) f).2 = 0 := by
  show db.job_roles.countP (jobMatches job_id (some e)) = 0
  rw [List.countP_eq_zero]
  intro j hj hm
  have hm' : j.id = job_id ∧ j.version = e := by
    simpa [jobMatches] using hm
  exact h j hj hm'.1 hm'.2

/-- After a conditional write on version `e` made from a read that observed
`e`, no row of the job holds `e` any more: the matched rows were bumped to
`e + 1` and the unmatched ones never held `e`. -/
theorem condWrite_noRow {db : DB} {job_id e : Nat} {job : JobRole} (w : Bool)
    (u : JobRoleUpdate) (hv : job.version = e) :
    noRowAtVersion
      (condUpdateJob db job_id (some e) (editedRow u w (job.version + 1))).1
      job_id e := by
  intro j' hj' hid
  obtain ⟨j, hj, rfl⟩ := List.mem_map.mp hj'
  by_cases hm : jobMatches job_id (some e) j = true
  · rw [if_pos hm] at hid ⊢
    rw [editedRow_version, hv]
    omega
  · rw [if_neg hm] at hid ⊢
    intro hveq
    apply hm
    simp [jobMatches, hid, hveq]

/-- A protocol step preserves the read observation. -/
theorem editStep_readOk (job_id e : Nat) (u : JobRoleUpdate) (db : DB)
    (st : EditorSt) (h : editorReadOk e st) :
    editorReadOk e (editStep job_id e u db st).2 := by
  unfold editStep
  cases hph : st.phase with
  | start =>
      cases hfind : findJob db job_id with
      | none =>
          intro hc
          rcases hc with hc | hc <;> exact absurd hc (by simp)
      | some job =>
          dsimp only []
          by_cases hv : job.version = e
          · rw [if_pos hv]
            intro _
            exact ⟨job, rfl, hv⟩
          · rw [if_neg hv]
            intro hc
            rcases hc with hc | hc <;> exact absurd hc (by simp)
  | ready =>
      cases hjr : st.jobRead with
      | none =>
          intro hc
          rcases hc with hc | hc <;> exact absurd hc (by simp)
      | some job =>
          obtain ⟨j, hj, hjv⟩ := h (Or.inl hph)
          rw [hjr] at hj
          have hjv' : job.version = e := by
            rw [show job = j from Option.some.inj hj]
            exact hjv
          dsimp only []
          by_cases hz : (condUpdateJob db job_id (some e)
              (editedRow u (job.status == Status.approved) (job.version + 1))).2 = 0
          · rw [if_pos hz]
            intro hc
            rcases hc with hc | hc
            · exact absurd hc (by simp)
            · exact absurd hc (by simp)
          · rw [if_neg hz]
            intro _
            exact ⟨job, rfl, hjv'⟩
  | done ok =>
      exact h

/-- One editor's step preserves the joint invariant, with the other editor
held fixed. -/
theorem editStep_preserves_inv (job_id e : Nat) (u : JobRoleUpdate) (db : DB)
    (st other : EditorSt)
    (hro : editorReadOk e st)
    (htrig : (st.phase = EditPhase.done true ∨ other.phase = EditPhase.done true) →
      noRowAtVersion db job_id e)
    (hboth : ¬ (st.phase = EditPhase.done true ∧ other.phase = EditPhase.done true)) :
    (((editStep job_id e u db st).2.phase = EditPhase.done true ∨
        other.phase = EditPhase.done true) →
      noRowAtVersion (editStep job_id e u db st).1 job_id e) ∧
    ¬ ((editStep job_id e u db st).2.phase = EditPhase.done true ∧
        other.phase = EditPhase.done true) := by
  unfold editStep
  cases hph : st.phase with
  | start =>
      cases hfind : findJob db job_id with
      | none =>
          refine ⟨?_, ?_⟩
          · intro hc
            rcases hc with hc | hc
            · exact absurd hc (by simp)
            · exact htrig (Or.inr hc)
          · intro hc
            exact absurd hc.1 (by simp)
      | some job =>
          dsimp only []
          by_cases hv : job.version = e
          · rw [if_pos hv]
            refine ⟨?_, ?_⟩
            · intro hc
              rcases hc with hc | hc
              · exact absurd hc (by simp)
              · exact htrig (Or.inr hc)
            · intro hc
              exact absurd hc.1 (by simp)
          · rw [if_neg hv]
            refine ⟨?_, ?_⟩
            · intro hc
              rcases hc with hc | hc
              · exact absurd hc (by simp)
              · exact htrig (Or.inr hc)
            · intro hc
              exact absurd hc.1 (by simp)
  | ready =>
      cases hjr : st.jobRead with
      | none =>
          refine ⟨?_, ?_⟩
          · intro hc
            rcases hc with hc | hc
            · exact absurd hc (by simp)
            · exact htrig (Or.inr hc)
          · intro hc
            exact absurd hc.1 (by simp)
      | some job =>
          obtain ⟨j, hj, hjv⟩ := hro (Or.inl hph)
          rw [hjr] at hj
          have hjv' : job.version = e := by
            rw [show job = j from Option.some.inj hj]
            exact hjv
          dsimp only []
          by_cases hz : (condUpdateJob db job_id (some e)
              (editedRow u (job.status == Status.approved) (job.version + 1))).2 = 0
          · rw [if_pos hz]
            refine ⟨?_, ?_⟩
            · intro _
              exact condWrite_noRow _ u hjv'
            · intro hc
              exact absurd hc.1 (by simp)
          · rw [if_neg hz]
            have hother : other.phase ≠ EditPhase.done true := by
              intro hod
              exact hz (noRow_condUpdate_zero _ (htrig (Or.inr hod)))
            refine ⟨?_, ?_⟩
            · intro _
              exact condWrite_noRow _ u hjv'
            · intro hc
              exact hother hc.2
  | done ok =>
      exact ⟨htrig, hboth⟩

/-- A scheduler step preserves the joint invariant. -/
theorem twoEditsInv_step (job_id e : Nat) (ua ub : JobRoleUpdate) (s : TwoEdits)
    (who : Bool) (h : twoEditsInv job_id e s) :
    twoEditsInv job_id e (twoEditsStep job_id e e ua ub s who) := by
  obtain ⟨hra, hrb, htrig, hboth⟩ := h
  cases who with
  | true =>
      have hp := editStep_preserves_inv job_id e ua s.db s.a s.b hra htrig hboth
      exact ⟨editStep_readOk job_id e ua s.db s.a hra, hrb, hp.1, hp.2⟩
  | false =>
      have hp := editStep_preserves_inv job_id e ub s.db s.b s.a hrb
        (fun hc => htrig hc.symm) (fun hc => hboth ⟨hc.2, hc.1⟩)
      refine ⟨hra, editStep_readOk job_id e ub s.db s.b hrb,
        fun hc => hp.1 hc.symm, fun hc => hp.2 ⟨hc.2, hc.1⟩⟩

/-- The joint invariant holds after any schedule. -/
theorem twoEditsInv_run (job_id e : Nat) (ua ub : JobRoleUpdate)
    (sched : List Bool) (s : TwoEdits) (h : twoEditsInv job_id e s) :
    twoEditsInv job_id e (twoEditsRun job_id e e ua ub s sched) := by
  induction sched generalizing s with
  | nil => exact h
  | cons w sched ih =>
      exact ih _ (twoEditsInv_step job_id e ua ub s w h)

/-- The read observations hold after any schedule, for arbitrary expected
versions. -/
theorem twoEditsReadOk_run (job_id ea eb : Nat) (ua ub : JobRoleUpdate)
    (sched : List Bool) (s : TwoEdits)
    (ha : editorReadOk ea s.a) (hb : editorReadOk eb s.b) :
    editorReadOk ea (twoEditsRun job_id ea eb ua ub s sched).a ∧
    editorReadOk eb (twoEditsRun job_id ea eb ua ub s sched).b := by
  induction sched generalizing s with
  | nil => exact ⟨ha, hb⟩
  | cons w sched ih =>
      cases w with
      | true =>
          exact ih _ (editStep_readOk job_id ea ua s.db s.a ha) hb
      | false =>
          exact ih _ ha (editStep_readOk job_id eb ub s.db s.b hb)

/-- C4 (amended): under every interleaving of the read and conditional-write
steps of two jobs-route edits of the same job that both supplied an expected
version, if both succeed then they observed different pre-edit versions — the
conditional write `eq("version", expected)` lets at most one edit through per
version generation.  (The employee-route edit writes with no version
predicate and is not serialized this way; see the counterexample.) -/
theorem concurrent_edits_observe_distinct_versions
    (db : DB) (job_id ea eb : Nat) (ua ub : JobRoleUpdate) (sched : List Bool)
    (ha : (twoEditsRun job_id ea eb ua ub (twoEditsInit db) sched).a.phase =
      EditPhase.done true)
    (hb : (twoEditsRun job_id ea eb ua ub (twoEditsInit db) sched).b.phase =
      EditPhase.done true) :
    ea ≠ eb ∧
    (∃ ja, (twoEditsRun job_id ea eb ua ub (twoEditsInit db) sched).a.jobRead =
      some ja ∧ ja.version = ea) ∧
    (∃ jb, (twoEditsRun job_id ea eb ua ub (twoEditsInit db) sched).b.jobRead =
      some jb ∧ jb.version = eb) := by
  have hro := twoEditsReadOk_run job_id ea eb ua ub sched (twoEditsInit db)
    (fun hc => by rcases hc with hc | hc <;> exact absurd hc (by simp [twoEditsInit]))
    (fun hc => by rcases hc with hc | hc <;> exact absurd hc (by simp [twoEditsInit]))
  refine ⟨?_, hro.1 (Or.inr ha), hro.2 (Or.inr hb)⟩
  intro heq
  subst heq
  have hinv := twoEditsInv_run job_id ea ua ub sched (twoEditsInit db)
    ⟨fun hc => by rcases hc with hc | hc <;> exact absurd hc (by simp [twoEditsInit]),
     fun hc => by rcases hc with hc | hc <;> exact absurd hc (by simp [twoEditsInit]),
     fun hc => by rcases hc with hc | hc <;> exact absurd hc (by simp [twoEditsInit]),
     fun hc => absurd hc.1 (by simp [twoEditsInit])⟩
  exact hinv.2.2.2 ⟨ha, hb⟩

/-- Witness for C4: a serial schedule in which both edits succeed — the
first with expected version 1, the second with the fresh version 2 — and the
theorem yields the distinct observed pre-edit versions. -/
theorem concurrent_edits_observe_distinct_versions_witness :
    (twoEditsRun 0 1 2 cxScalarPatchV1 cxPatch2 (twoEditsInit cxDbPending)
      [true, true, false, false]).a.phase = EditPhase.done true ∧
    (twoEditsRun 0 1 2 cxScalarPatchV1 cxPatch2 (twoEditsInit cxDbPending)
      [true, true, false, false]).b.phase = EditPhase.done true ∧
    (1 : Nat) ≠ 2 := by
  refine ⟨by decide, by decide, ?_⟩
  exact (concurrent_edits_observe_distinct_versions cxDbPending 0 1 2
    cxScalarPatchV1 cxPatch2 [true, true, false, false] (by decide) (by decide)).1

/-- C4 counterexample: `update_employee_job` checks the supplied version
against its read non-atomically and then writes with no version predicate
(`update(...).eq("id", job_id)` only), so two interleaved employee edits both
supplying the stored version 2 both succeed — the second's read and pre-check
ran against the original store, its write landed on the first's result — and
both observed the same pre-edit version.  After two successful edits the
stored version is 3, not 4: the first increment is silently overwritten. -/
theorem interleaved_employee_edits_same_version_both_succeed :
    (findJob cxDbApproved 0).map JobRole.version = some 2 ∧
    cxEmpPatchV2a.current_version = some 2 ∧
    cxEmpPatchV2b.current_version = some 2 ∧
    update_employee_job cxDbApproved 0 cxEmpPatchV2a cxOwner =
      Except.ok cxDbEmpFirst ∧
    update_employee_job_conc (fun _ => cxDbEmpFirst) cxDbApproved 0
      cxEmpPatchV2b cxOwner = Except.ok cxDbEmpSecond ∧
    (findJob cxDbEmpSecond 0).map JobRole.version = some 3 := by
  decide

/-- A found row is a member of the role table. -/
theorem findJob_mem {db : DB} {q : Nat} {job : JobRole}
    (h : findJob db q = some job) : job ∈ db.job_roles :=
  List.mem_of_find?_eq_some h

/-- A job id above every logged job id has no approval requests at all. -/
theorem pendingCount_fresh {db : DB} {n : Nat}
    (h : ∀ a ∈ db.approval_requests, a.job_id < n) :
    pendingCount db n = 0 := by
  unfold pendingCount
  rw [List.countP_eq_zero]
  intro a amem hpa
  have hlt := h a amem
  have : a.job_id = n := by
    have := hpa
    simp only [Bool.and_eq_true, beq_iff_eq] at this
    exact this.1
  omega

/-- A job id above every stored id resolves to no row. -/
theorem findJob_fresh {db : DB} {n : Nat}
    (h : ∀ j ∈ db.job_roles, j.id < n) :
    findJob db n = none := by
  unfold findJob
  rw [List.find?_eq_none]
  intro j hj hpj
  have hlt := h j hj
  have : j.id = n := by simpa using hpj
  omega

/-- The pending count after the jobs-route edit assembly. -/
theorem pendingCount_postEdit (db : DB) (jid : Nat) (u : JobRoleUpdate) (user : User)
    (job : JobRole) (q : Nat) :
    pendingCount (postEdit db jid u user job) q =
      pendingCount db q +
        (if q = jid ∧ job.status = Status.approved then 1 else 0) := by
  have h := postEdit_approval_requests db jid u user job
  unfold pendingCount at *
  rw [h]
  by_cases hw : (job.status == Status.approved) = true
  · have hst : job.status = Status.approved := by simpa using hw
    rw [if_pos hw, List.countP_append]
    congr 1
    by_cases hq : q = jid
    · rw [if_pos ⟨hq, hst⟩]
      subst hq
      simp
    · rw [if_neg (fun hc => hq hc.1)]
      simp [Ne.symm hq]
  · have hst : job.status ≠ Status.approved := by simpa using hw
    rw [if_neg hw, if_neg (fun hc => hst hc.2)]
    omega

/-- The pending count after the employee edit assembly. -/
theorem pendingCount_postEditEmp (db : DB) (jid : Nat) (u : JobRoleUpdate)
    (user : User) (job : JobRole) (q : Nat) :
    pendingCount (postEditEmp db jid u user job) q =
      pendingCount db q +
        (if q = jid ∧ job.status = Status.approved then 1 else 0) := by
  have h := postEditEmp_approval_requests db jid u user job
  unfold pendingCount at *
  rw [h]
  by_cases hw : (job.status == Status.approved) = true
  · have hst : job.status = Status.approved := by simpa using hw
    rw [if_pos hw, List.countP_append]
    congr 1
    by_cases hq : q = jid
    · rw [if_pos ⟨hq, hst⟩]
      subst hq
      simp
    · rw [if_neg (fun hc => hq hc.1)]
      simp [Ne.symm hq]
  · have hst : job.status ≠ Status.approved := by simpa using hw
    rw [if_neg hw, if_neg (fun hc => hst hc.2)]
    omega

/-- The approval log after `create_job`: the fresh pending request of the new
job id. -/
theorem postCreate_approval_requests (db : DB) (job : JobRoleCreate) (user : User) :
    (postCreate db job user).approval_requests = db.approval_requests ++
      [{ id := db.next_id + 1 + job.technical_questions.length,
         job_id := db.next_id, requested_by := user.id, status := Status.pending,
         reason := none, reviewed_by := none, reviewed_at := none }] := by
  dsimp only [postCreate]
  show ((insertQuestions _ db.next_id job.technical_questions).approval_requests ++
    [{ id := (insertQuestions _ db.next_id job.technical_questions).next_id,
       job_id := db.next_id, requested_by := user.id, status := Status.pending,
       reason := none, reviewed_by := none, reviewed_at := none }]) = _
  rw [insertQuestions_approval_requests, insertQuestions_next_id]

/-- The pending count after `create_job`. -/
theorem pendingCount_postCreate (db : DB) (job : JobRoleCreate) (user : User)
    (q : Nat) :
    pendingCount (postCreate db job user) q =
      pendingCount db q + (if q = db.next_id then 1 else 0) := by
  unfold pendingCount
  rw [postCreate_approval_requests, List.countP_append]
  congr 1
  by_cases hq : q = db.next_id
  · rw [if_pos hq]
    subst hq
    simp
  · rw [if_neg hq]
    simp [Ne.symm hq]

/-- The pending counts after `approve_job`: zero for the approved job,
untouched elsewhere. -/
theorem pendingCount_postApprove (db : DB) (jid : Nat) (user : User) (now : Nat)
    (job : JobRole) (q : Nat) :
    pendingCount (postApprove db jid user now job) q =
      (if q = jid then 0 else pendingCount db q) := by
  by_cases hq : q = jid
  · rw [if_pos hq]
    subst hq
    exact pendingCount_updatePendingARs_self
      (condUpdateJob db q none (fun j => { j with
        status := Status.approved, approved_by := some user.id,
        approved_at := some now, rejection_reason := none,
        version := job.version + 1 })).1 q
      (fun a => { a with
        status := Status.approved, reviewed_by := some user.id,
        reviewed_at := some now })
      (fun a => rfl) (fun a hc => Status.noConfusion hc)
  · rw [if_neg hq]
    exact pendingCount_updatePendingARs_other
      (condUpdateJob db jid none (fun j => { j with
        status := Status.approved, approved_by := some user.id,
        approved_at := some now, rejection_reason := none,
        version := job.version + 1 })).1 jid
      (fun a => { a with
        status := Status.approved, reviewed_by := some user.id,
        reviewed_at := some now })
      (fun a => rfl) q hq

/-- The pending counts after `reject_job`. -/
theorem pendingCount_postReject (db : DB) (jid : Nat) (reason : String) (user : User)
    (now : Nat) (job : JobRole) (q : Nat) :
    pendingCount (postReject db jid reason user now job) q =
      (if q = jid then 0 else pendingCount db q) := by
  by_cases hq : q = jid
  · rw [if_pos hq]
    subst hq
    exact pendingCount_updatePendingARs_self
      (condUpdateJob db q none (fun j => { j with
        status := Status.rejected, rejection_reason := some reason,
        approved_by := none, approved_at := none,
        version := job.version + 1 })).1 q
      (fun a => { a with
        status := Status.rejected, reviewed_by := some user.id,
        reviewed_at := some now, reason := some reason })
      (fun a => rfl) (fun a hc => Status.noConfusion hc)
  · rw [if_neg hq]
    exact pendingCount_updatePendingARs_other
      (condUpdateJob db jid none (fun j => { j with
        status := Status.rejected, rejection_reason := some reason,
        approved_by := none, approved_at := none,
        version := job.version + 1 })).1 jid
      (fun a => { a with
        status := Status.rejected, reviewed_by := some user.id,
        reviewed_at := some now, reason := some reason })
      (fun a => rfl) q hq

/-- The conditional update maps the role table row-wise. -/
theorem condUpdateJob_job_roles (db : DB) (jid : Nat) (cond : Option Nat)
    (f : JobRole → JobRole) :
    (condUpdateJob db jid cond f).1.job_roles =
      db.job_roles.map (fun j => if jobMatches jid cond j then f j else j) := rfl

/-- The conditional update does not advance the id sequence. -/
theorem condUpdateJob_next_id (db : DB) (jid : Nat) (cond : Option Nat)
    (f : JobRole → JobRole) :
    (condUpdateJob db jid cond f).1.next_id = db.next_id := rfl

/-- The id sequence never moves backwards through the jobs-route edit
assembly. -/
theorem postEdit_next_id_ge (db : DB) (jid : Nat) (u : JobRoleUpdate) (user : User)
    (job : JobRole) :
    db.next_id ≤ (postEdit db jid u user job).next_id := by
  dsimp only [postEdit]
  cases u.technical_questions with
  | none =>
      by_cases hw : (job.status == Status.approved) = true
      · rw [if_pos hw]
        show db.next_id ≤ db.next_id + 1
        omega
      · rw [if_neg hw]
        exact Nat.le_refl _
  | some qs =>
      by_cases hw : (job.status == Status.approved) = true
      · rw [if_pos hw, replaceQuestions_next_id]
        show db.next_id ≤ db.next_id + 1 + qs.length
        omega
      · rw [if_neg hw, replaceQuestions_next_id, condUpdateJob_next_id]
        omega

/-- The id sequence never moves backwards through the employee edit
assembly. -/
theorem postEditEmp_next_id_ge (db : DB) (jid : Nat) (u : JobRoleUpdate)
    (user : User) (job : JobRole) :
    db.next_id ≤ (postEditEmp db jid u user job).next_id := by
  dsimp only [postEditEmp]
  cases u.technical_questions with
  | none =>
      by_cases hw : (job.status == Status.approved) = true
      · rw [if_pos hw]
        show db.next_id ≤ db.next_id + 1
        omega
      · rw [if_neg hw]
        exact Nat.le_refl _
  | some qs =>
      by_cases hw : (job.status == Status.approved) = true
      · rw [if_pos hw]
        show db.next_id ≤ (replaceQuestions _ jid qs).next_id + 1
        rw [replaceQuestions_next_id, condUpdateJob_next_id]
        omega
      · rw [if_neg hw, replaceQuestions_next_id, condUpdateJob_next_id]
        omega

/-- The id sequence after `create_job`. -/
theorem postCreate_next_id (db : DB) (job : JobRoleCreate) (user : User) :
    (postCreate db job user).next_id =
      db.next_id + 1 + job.technical_questions.length + 1 := by
  dsimp only [postCreate]
  show (insertQuestions _ db.next_id job.technical_questions).next_id + 1 = _
  rw [insertQuestions_next_id]

/-- Lookups of other ids are unaffected by `create_job`. -/
theorem findJob_postCreate_other {db : DB} {job : JobRoleCreate} {user : User}
    {q : Nat} (hq : q ≠ db.next_id) :
    findJob (postCreate db job user) q = findJob db q := by
  unfold findJob
  rw [postCreate_job_roles, List.find?_append]
  cases hf : db.job_roles.find? (fun j => j.id == q) with
  | some j => rfl
  | none => simp [Ne.symm hq]

/-- The role table after `approve_job`, row-wise. -/
theorem postApprove_job_roles (db : DB) (jid : Nat) (user : User) (now : Nat)
    (job : JobRole) :
    (postApprove db jid user now job).job_roles =
      db.job_roles.map (fun j => if jobMatches jid none j then
        { j with status := Status.approved, approved_by := some user.id,
                 approved_at := some now, rejection_reason := none,
                 version := job.version + 1 } else j) := rfl

/-- The audit log after `approve_job`, row-wise. -/
theorem postApprove_approval_requests (db : DB) (jid : Nat) (user : User) (now : Nat)
    (job : JobRole) :
    (postApprove db jid user now job).approval_requests =
      db.approval_requests.map (fun a =>
        if a.job_id == jid && a.status == Status.pending then
          { a with status := Status.approved, reviewed_by := some user.id,
                   reviewed_at := some now } else a) := rfl

/-- `approve_job` does not advance the id sequence. -/
theorem postApprove_next_id (db : DB) (jid : Nat) (user : User) (now : Nat)
    (job : JobRole) :
    (postApprove db jid user now job).next_id = db.next_id := rfl

/-- The role table after `reject_job`, row-wise. -/
theorem postReject_job_roles (db : DB) (jid : Nat) (reason : String) (user : User)
    (now : Nat) (job : JobRole) :
    (postReject db jid reason user now job).job_roles =
      db.job_roles.map (fun j => if jobMatches jid none j then
        { j with status := Status.rejected, rejection_reason := some reason,
                 approved_by := none, approved_at := none,
                 version := job.version + 1 } else j) := rfl

/-- The audit log after `reject_job`, row-wise. -/
theorem postReject_approval_requests (db : DB) (jid : Nat) (reason : String)
    (user : User) (now : Nat) (job : JobRole) :
    (postReject db jid reason user now job).approval_requests =
      db.approval_requests.map (fun a =>
        if a.job_id == jid && a.status == Status.pending then
          { a with status := Status.rejected, reviewed_by := some user.id,
                   reviewed_at := some now, reason := some reason } else a) := rfl

/-- `reject_job` does not advance the id sequence. -/
theorem postReject_next_id (db : DB) (jid : Nat) (reason : String) (user : User)
    (now : Nat) (job : JobRole) :
    (postReject db jid reason user now job).next_id = db.next_id := rfl

/-- Each serial lifecycle operation preserves the audit-log invariant. -/
theorem inv_applyOp (db : DB) (op : Op) (h : Inv db) : Inv (applyOp db op) := by
  obtain ⟨hbJ, hbA, hpc⟩ := h
  cases op with
  | create j u =>
      show Inv (match create_job db j u with
        | Except.ok p => p.1
        | Except.error _ => db)
      cases hc : create_job db j u with
      | error e => exact ⟨hbJ, hbA, hpc⟩
      | ok p =>
          obtain ⟨db2, jid2⟩ := p
          obtain ⟨hjid, hdb2⟩ := create_job_ok hc
          show Inv db2
          subst hdb2
          refine ⟨?_, ?_, ?_⟩
          · intro j2 hj2
            rw [postCreate_job_roles] at hj2
            rw [postCreate_next_id]
            rcases List.mem_append.mp hj2 with hm | hm
            · have := hbJ j2 hm
              omega
            · rcases List.mem_singleton.mp hm with rfl
              show db.next_id < _
              omega
          · intro a ha
            rw [postCreate_approval_requests] at ha
            rw [postCreate_next_id]
            rcases List.mem_append.mp ha with hm | hm
            · have := hbA a hm
              omega
            · rcases List.mem_singleton.mp hm with rfl
              show db.next_id < _
              omega
          · intro q
            rw [pendingCount_postCreate]
            by_cases hq : q = db.next_id
            · rw [if_pos hq, hq]
              have hcount : pendingCount db db.next_id = 0 := pendingCount_fresh hbA
              have hspec : pendingSpec (postCreate db j u) db.next_id = 1 := by
                unfold pendingSpec
                rw [findJob_postCreate_self hbJ]
                simp
              rw [hspec, hcount]
            · have hspec : pendingSpec (postCreate db j u) q = pendingSpec db q := by
                unfold pendingSpec
                rw [findJob_postCreate_other hq]
              rw [hspec, if_neg hq, ← hpc q]
              omega
  | edit jid u usr =>
      show Inv (match update_job db jid u usr with
        | Except.ok d => d
        | Except.error _ => db)
      cases hc : update_job db jid u usr with
      | error e => exact ⟨hbJ, hbA, hpc⟩
      | ok d =>
          show Inv d
          obtain ⟨job, hfind, hcase⟩ := update_job_ok hc
          rcases hcase with ⟨_, _, _, _, rfl⟩ | ⟨_, _, _, hcv, rfl⟩
          · exact ⟨hbJ, hbA, hpc⟩
          · have hnid := postEdit_next_id_ge db jid u usr job
            refine ⟨?_, ?_, ?_⟩
            · intro j2 hj2
              rw [postEdit_job_roles, condUpdateJob_job_roles] at hj2
              obtain ⟨j0, hj0, rfl⟩ := List.mem_map.mp hj2
              have hlt := hbJ j0 hj0
              have hid : (if jobMatches jid u.current_version j0 then
                  editedRow u (job.status == Status.approved) (job.version + 1) j0
                  else j0).id = j0.id := by
                by_cases hm : jobMatches jid u.current_version j0 = true
                · rw [if_pos hm, editedRow_id]
                · rw [if_neg hm]
              rw [hid]
              omega
            · intro a ha
              rw [postEdit_approval_requests] at ha
              by_cases hw : (job.status == Status.approved) = true
              · rw [if_pos hw] at ha
                rcases List.mem_append.mp ha with hm | hm
                · have := hbA a hm
                  omega
                · rcases List.mem_singleton.mp hm with rfl
                  show jid < _
                  have hjm : job.id = jid := findJob_id hfind
                  have := hbJ job (findJob_mem hfind)
                  omega
              · rw [if_neg hw] at ha
                have := hbA a ha
                omega
            · intro q
              rw [pendingCount_postEdit]
              by_cases hq : q = jid
              · rw [hq]
                have hfd := @findJob_postEdit_self db jid u usr job hfind hcv
                have hL : pendingCount db jid =
                    (if job.status = Status.pending then 1 else 0) := by
                  rw [hpc jid]
                  unfold pendingSpec
                  rw [hfind]
                have hR : pendingSpec (postEdit db jid u usr job) jid =
                    (if (editedRow u (job.status == Status.approved)
                      (job.version + 1) job).status = Status.pending then 1
                     else 0) := by
                  unfold pendingSpec
                  rw [hfd]
                rw [hL, hR]
                cases hst : job.status with
                | approved =>
                    rw [show (Status.approved == Status.approved) = true from rfl]
                    rw [(editedRow_approved_fields u (job.version + 1) job).1]
                    simp
                | pending =>
                    rw [show (Status.pending == Status.approved) = false from rfl]
                    rw [editedRow_status_of_not_approved, hst]
                    simp
                | rejected =>
                    rw [show (Status.rejected == Status.approved) = false from rfl]
                    rw [editedRow_status_of_not_approved, hst]
                    simp
              · rw [if_neg (fun hcc => hq hcc.1)]
                have hfd : findJob (postEdit db jid u usr job) q = findJob db q := by
                  rw [findJob_eq_of_job_roles (postEdit_job_roles db jid u usr job) q]
                  exact findJob_condUpdateJob_other db jid u.current_version _
                    (fun j0 => editedRow_id u _ _ j0) q hq
                have hR : pendingSpec (postEdit db jid u usr job) q =
                    pendingSpec db q := by
                  unfold pendingSpec
                  rw [hfd]
                rw [hR, ← hpc q]
                omega
  | editEmp jid u usr =>
      show Inv (match update_employee_job db jid u usr with
        | Except.ok d => d
        | Except.error _ => db)
      cases hc : update_employee_job db jid u usr with
      | error e => exact ⟨hbJ, hbA, hpc⟩
      | ok d =>
          show Inv d
          obtain ⟨job, hfind, rfl⟩ := update_employee_job_ok hc
          have hnid := postEditEmp_next_id_ge db jid u usr job
          refine ⟨?_, ?_, ?_⟩
          · intro j2 hj2
            rw [postEditEmp_job_roles, condUpdateJob_job_roles] at hj2
            obtain ⟨j0, hj0, rfl⟩ := List.mem_map.mp hj2
            have hlt := hbJ j0 hj0
            have hid : (if jobMatches jid none j0 then
                editedRow u (job.status == Status.approved) (job.version + 1) j0
                else j0).id = j0.id := by
              by_cases hm : jobMatches jid none j0 = true
              · rw [if_pos hm, editedRow_id]
              · rw [if_neg hm]
            rw [hid]
            omega
          · intro a ha
            rw [postEditEmp_approval_requests] at ha
            by_cases hw : (job.status == Status.approved) = true
            · rw [if_pos hw] at ha
              rcases List.mem_append.mp ha with hm | hm
              · have := hbA a hm
                omega
              · rcases List.mem_singleton.mp hm with rfl
                show jid < _
                have hjm : job.id = jid := findJob_id hfind
                have := hbJ job (findJob_mem hfind)
                omega
            · rw [if_neg hw] at ha
              have := hbA a ha
              omega
          · intro q
            rw [pendingCount_postEditEmp]
            by_cases hq : q = jid
            · rw [hq]
              have hfd := @findJob_postEditEmp_self db jid u usr job hfind
              have hL : pendingCount db jid =
                  (if job.status = Status.pending then 1 else 0) := by
                rw [hpc jid]
                unfold pendingSpec
                rw [hfind]
              have hR : pendingSpec (postEditEmp db jid u usr job) jid =
                  (if (editedRow u (job.status == Status.approved)
                    (job.version + 1) job).status = Status.pending then 1
                   else 0) := by
                unfold pendingSpec
                rw [hfd]
              rw [hL, hR]
              cases hst : job.status with
              | approved =>
                  rw [show (Status.approved == Status.approved) = true from rfl]
                  rw [(editedRow_approved_fields u (job.version + 1) job).1]
                  simp
              | pending =>
                  rw [show (Status.pending == Status.approved) = false from rfl]
                  rw [editedRow_status_of_not_approved, hst]
                  simp
              | rejected =>
                  rw [show (Status.rejected == Status.approved) = false from rfl]
                  rw [editedRow_status_of_not_approved, hst]
                  simp
            · rw [if_neg (fun hcc => hq hcc.1)]
              have hfd : findJob (postEditEmp db jid u usr job) q = findJob db q := by
                rw [findJob_eq_of_job_roles (postEditEmp_job_roles db jid u usr job) q]
                exact findJob_condUpdateJob_other db jid none _
                  (fun j0 => editedRow_id u _ _ j0) q hq
              have hR : pendingSpec (postEditEmp db jid u usr job) q =
                  pendingSpec db q := by
                unfold pendingSpec
                rw [hfd]
              rw [hR, ← hpc q]
              omega
  | approve jid usr now =>
      show Inv (match approve_job db jid usr now with
        | Except.ok d => d
        | Except.error _ => db)
      cases hc : approve_job db jid usr now with
      | error e => exact ⟨hbJ, hbA, hpc⟩
      | ok d =>
          show Inv d
          obtain ⟨job, hfind, hst, rfl⟩ := approve_job_ok hc
          refine ⟨?_, ?_, ?_⟩
          · intro j2 hj2
            rw [postApprove_job_roles] at hj2
            rw [postApprove_next_id]
            obtain ⟨j0, hj0, rfl⟩ := List.mem_map.mp hj2
            have hlt := hbJ j0 hj0
            by_cases hm : jobMatches jid none j0 = true
            · rw [if_pos hm]
              exact hlt
            · rw [if_neg hm]
              exact hlt
          · intro a ha
            rw [postApprove_approval_requests] at ha
            rw [postApprove_next_id]
            obtain ⟨a0, ha0, rfl⟩ := List.mem_map.mp ha
            have hlt := hbA a0 ha0
            by_cases hm2 : (a0.job_id == jid && a0.status == Status.pending) = true
            · rw [if_pos hm2]
              exact hlt
            · rw [if_neg hm2]
              exact hlt
          · intro q
            rw [pendingCount_postApprove]
            by_cases hq : q = jid
            · rw [if_pos hq, hq]
              have hfd := @findJob_postApprove_self db jid usr now job hfind
              unfold pendingSpec
              rw [hfd]
              simp
            · rw [if_neg hq]
              have hjr : (postApprove db jid usr now job).job_roles =
                  ((condUpdateJob db jid none (fun j0 => { j0 with
                    status := Status.approved, approved_by := some usr.id,
                    approved_at := some now, rejection_reason := none,
                    version := job.version + 1 })).1).job_roles := rfl
              have hfd : findJob (postApprove db jid usr now job) q =
                  findJob db q := by
                rw [findJob_eq_of_job_roles hjr q]
                exact findJob_condUpdateJob_other db jid none
                  (fun j0 => { j0 with
                    status := Status.approved, approved_by := some usr.id,
                    approved_at := some now, rejection_reason := none,
                    version := job.version + 1 })
                  (fun j0 => rfl) q hq
              have hR : pendingSpec (postApprove db jid usr now job) q =
                  pendingSpec db q := by
                unfold pendingSpec
                rw [hfd]
              rw [hR]
              exact hpc q
  | reject jid reason usr now =>
      show Inv (match reject_job db jid reason usr now with
        | Except.ok d => d
        | Except.error _ => db)
      cases hc : reject_job db jid reason usr now with
      | error e => exact ⟨hbJ, hbA, hpc⟩
      | ok d =>
          show Inv d
          obtain ⟨job, hfind, hst, rfl⟩ := reject_job_ok hc
          refine ⟨?_, ?_, ?_⟩
          · intro j2 hj2
            rw [postReject_job_roles] at hj2
            rw [postReject_next_id]
            obtain ⟨j0, hj0, rfl⟩ := List.mem_map.mp hj2
            have hlt := hbJ j0 hj0
            by_cases hm : jobMatches jid none j0 = true
            · rw [if_pos hm]
              exact hlt
            · rw [if_neg hm]
              exact hlt
          · intro a ha
            rw [postReject_approval_requests] at ha
            rw [postReject_next_id]
            obtain ⟨a0, ha0, rfl⟩ := List.mem_map.mp ha
            have hlt := hbA a0 ha0
            by_cases hm2 : (a0.job_id == jid && a0.status == Status.pending) = true
            · rw [if_pos hm2]
              exact hlt
            · rw [if_neg hm2]
              exact hlt
          · intro q
            rw [pendingCount_postReject]
            by_cases hq : q = jid
            · rw [if_pos hq, hq]
              have hfd := @findJob_postReject_self db jid reason usr now job hfind
              unfold pendingSpec
              rw [hfd]
              simp
            · rw [if_neg hq]
              have hjr : (postReject db jid reason usr now job).job_roles =
                  ((condUpdateJob db jid none (fun j0 => { j0 with
                    status := Status.rejected, rejection_reason := some reason,
                    approved_by := none, approved_at := none,
                    version := job.version + 1 })).1).job_roles := rfl
              have hfd : findJob (postReject db jid reason usr now job) q =
                  findJob db q := by
                rw [findJob_eq_of_job_roles hjr q]
                exact findJob_condUpdateJob_other db jid none
                  (fun j0 => { j0 with
                    status := Status.rejected, rejection_reason := some reason,
                    approved_by := none, approved_at := none,
                    version := job.version + 1 })
                  (fun j0 => rfl) q hq
              have hR : pendingSpec (postReject db jid reason usr now job) q =
                  pendingSpec db q := by
                unfold pendingSpec
                rw [hfd]
              rw [hR]
              exact hpc q

/-- The empty store satisfies the audit-log invariant. -/
theorem inv_emptyDB : Inv emptyDB := by
  refine ⟨?_, ?_, ?_⟩
  · intro j hj
    cases hj
  · intro a ha
    cases ha
  · intro jid
    rfl

/-- The invariant is carried through any serial history. -/
theorem inv_runOps (ops : List Op) : ∀ db : DB, Inv db → Inv (runOps db ops) := by
  induction ops with
  | nil => intro db h; exact h
  | cons op ops ih =>
      intro db h
      exact ih (applyOp db op) (inv_applyOp db op h)

/-- The status-derived pending quota is never more than one. -/
theorem pendingSpec_le_one (db : DB) (q : Nat) : pendingSpec db q ≤ 1 := by
  unfold pendingSpec
  cases findJob db q with
  | none => exact Nat.zero_le 1
  | some j =>
      by_cases hs : j.status = Status.pending
      · simp [hs]
      · simp [hs]

/-- C3 (amended): over every serial (atomic) history of create, edit,
approve, and reject operations from the empty store, each job id has at most
one pending approval request; the original interleaved form of the claim is
refuted by the two-editor schedule of
`interleaved_versionless_edits_two_pending`. -/
theorem serial_pending_approval_at_most_one (ops : List Op) (jid : Nat) :
    pendingCount (runOps emptyDB ops) jid ≤ 1 := by
  have hinv := inv_runOps ops emptyDB inv_emptyDB
  rw [hinv.2.2 jid]
  exact pendingSpec_le_one _ jid

end PerfectFit
